import Mathlib

set_option maxRecDepth 4000

/-!
Verification development for the json-surf schema-inference and document
marshalling layer (src/utils.rs and src/registry.rs).

The serde value model, the schema inferencer, the field option resolvers,
the collection registry and the document marshaller are translated from the
source.  The external full-text engine (tokenizer, query matching, ranked
top-K retrieval, stored-document fetch) is out of scope of the library and
is modelled from the contract the specification gives for it; every such
definition is marked in its doc comment.
-/

namespace JsonSurf

/-- Two-part diagnostic error (message plus reason), as carried by the
library IndexError type. -/
structure IndexError where
  message : String
  reason : String
deriving DecidableEq, Repr

/- The serde_value::Value tagged union.  Nested sequences and maps are
represented through the mutual types ValueList and ValueKVs so that
recursion over values is structural.  The map is the entry list of the
BTreeMap in its iteration order; the BTreeMap invariant (string keys
sorted, no duplicates) is stated as a hypothesis where a theorem needs it. -/
mutual
/-- The serde_value::Value tagged union. -/
inductive Value where
  | null : Value
  | bool : Bool → Value
  | str : String → Value
  | u8 : Nat → Value
  | u16 : Nat → Value
  | u32 : Nat → Value
  | u64 : Nat → Value
  | i8 : Int → Value
  | i16 : Int → Value
  | i32 : Int → Value
  | i64 : Int → Value
  | f32 : Rat → Value
  | f64 : Rat → Value
  | char : Char → Value
  | bytes : List Nat → Value
  | seq : ValueList → Value
  | map : ValueKVs → Value
inductive ValueList where
  | nil : ValueList
  | cons : Value → ValueList → ValueList
inductive ValueKVs where
  | nil : ValueKVs
  | cons : Value → Value → ValueKVs → ValueKVs
end

/-- tantivy TextOptions: whether the field is indexed and whether it is
stored. -/
structure TextOptions where
  indexing : Bool
  stored : Bool
deriving DecidableEq, Repr

/-- tantivy IntOptions: whether the field is indexed and whether it is
stored. -/
structure IntOptions where
  indexed : Bool
  stored : Bool
deriving DecidableEq, Repr

/-- The tantivy TEXT constant: indexed, not stored. -/
def TEXT : TextOptions := ⟨true, false⟩

/-- TEXT combined with STORED: indexed and stored. -/
def TEXT_STORED : TextOptions := ⟨true, true⟩

/-- Container to pass through config to tantivy (registry.rs). -/
inductive Control where
  | ControlTextOptions : TextOptions → Control
  | ControlIntOptions : IntOptions → Control
deriving DecidableEq, Repr

/-- Association-list lookup, modelling HashMap::get with string keys. -/
def alist_get {α : Type} : List (String × α) → String → Option α
  | [], _ => none
  | (k, v) :: rest, key => if k = key then some v else alist_get rest key

/-- Association-list update, modelling HashMap::insert with string keys. -/
def alist_put {α : Type} : List (String × α) → String → α → List (String × α)
  | [], key, v => [(key, v)]
  | (k, w) :: rest, key, v =>
    if k = key then (k, v) :: rest else (k, w) :: alist_put rest key v

/-- utils.rs resolve_text_option: store and index text by default. -/
def resolve_text_option (key : String) (control : Option (List (String × Control))) :
    TextOptions :=
  let dflt := TEXT_STORED
  match control with
  | some c =>
    match alist_get c key with
    | none => dflt
    | some x =>
      match x with
      | Control.ControlTextOptions opt => opt
      | _ => dflt
  | none => dflt

/-- utils.rs resolve_number_option: store and index numbers by default
(IntOptions::default().set_indexed().set_stored()). -/
def resolve_number_option (key : String) (control : Option (List (String × Control))) :
    IntOptions :=
  let dflt : IntOptions := ⟨true, true⟩
  match control with
  | some c =>
    match alist_get c key with
    | none => dflt
    | some x =>
      match x with
      | Control.ControlIntOptions opt => opt
      | _ => dflt
  | none => dflt

/-- A schema field type: the field kind together with its options, as
produced by the tantivy SchemaBuilder add_*_field calls. -/
inductive FieldType where
  | text : TextOptions → FieldType
  | u64 : IntOptions → FieldType
  | i64 : IntOptions → FieldType
  | f64 : IntOptions → FieldType
  | bytes : FieldType
deriving DecidableEq, Repr

/-- A named schema field.  The ordinal of a field is its index in the
schema list. -/
structure FieldEntry where
  name : String
  ftype : FieldType
deriving DecidableEq, Repr

abbrev Schema := List FieldEntry

/-- The entry loop of utils.rs as_schema_builder: iterate the map entries in
order; a string key is classified by the variant of its value, any other
key fails.  (In the source the value is re-fetched with kv.get(key), which
for a BTreeMap always yields the entry value; the iteration here carries
the pairs directly.) -/
def build_fields (control : Option (List (String × Control))) :
    ValueKVs → Except IndexError (List FieldEntry)
  | .nil => .ok []
  | .cons key value rest =>
    match key with
    | Value.str k =>
      match value with
      | Value.str _ => do
          let r ← build_fields control rest
          .ok (⟨k, .text (resolve_text_option k control)⟩ :: r)
      | Value.bool _ => do
          let r ← build_fields control rest
          .ok (⟨k, .text (resolve_text_option k control)⟩ :: r)
      | Value.u64 _ => do
          let r ← build_fields control rest
          .ok (⟨k, .u64 (resolve_number_option k control)⟩ :: r)
      | Value.u32 _ => do
          let r ← build_fields control rest
          .ok (⟨k, .u64 (resolve_number_option k control)⟩ :: r)
      | Value.u16 _ => do
          let r ← build_fields control rest
          .ok (⟨k, .u64 (resolve_number_option k control)⟩ :: r)
      | Value.u8 _ => do
          let r ← build_fields control rest
          .ok (⟨k, .u64 (resolve_number_option k control)⟩ :: r)
      | Value.i64 _ => do
          let r ← build_fields control rest
          .ok (⟨k, .i64 (resolve_number_option k control)⟩ :: r)
      | Value.i32 _ => do
          let r ← build_fields control rest
          .ok (⟨k, .i64 (resolve_number_option k control)⟩ :: r)
      | Value.i16 _ => do
          let r ← build_fields control rest
          .ok (⟨k, .i64 (resolve_number_option k control)⟩ :: r)
      | Value.i8 _ => do
          let r ← build_fields control rest
          .ok (⟨k, .i64 (resolve_number_option k control)⟩ :: r)
      | Value.f64 _ => do
          let r ← build_fields control rest
          .ok (⟨k, .f64 (resolve_number_option k control)⟩ :: r)
      | Value.f32 _ => do
          let r ← build_fields control rest
          .ok (⟨k, .f64 (resolve_number_option k control)⟩ :: r)
      | Value.seq _ => do
          let r ← build_fields control rest
          .ok (⟨k, .bytes⟩ :: r)
      | _ => .error ⟨"Unable to create schema", "Unhandled value types"⟩
    | _ => .error ⟨"Unable to create schema", "keys were not string"⟩

/-- utils.rs as_schema_builder: maps flat JSON structures to a schema;
fails unless the value is a map. -/
def as_schema_builder (data : Value) (control : Option (List (String × Control))) :
    Except IndexError Schema :=
  match data with
  | Value.map kv => build_fields control kv
  | _ => .error ⟨"Unable to create schema", "Invalid JSON"⟩

/-- utils.rs to_schema: build the schema from the builder (the build step
is the identity in this model). -/
def to_schema (data : Value) (control : Option (List (String × Control))) :
    Except IndexError Schema :=
  as_schema_builder data control

/-- A serde_json number: a non-negative integer, a negative integer, or a
float (floats are modelled as exact rationals). -/
inductive JNum where
  | pos : Nat → JNum
  | neg : Int → JNum
  | flt : Rat → JNum
deriving DecidableEq, Repr

/-- A JSON value, standing for the JSON text serde_json produces
(serialization of ordered objects is injective, so the tree represents the
text). -/
inductive Json where
  | null : Json
  | bool : Bool → Json
  | num : JNum → Json
  | str : String → Json
  | arr : List Json → Json
  | obj : List (String × Json) → Json

/-- How serde_json serializes a signed integer: non-negative values become
the unsigned number form. -/
def int_num (v : Int) : JNum :=
  if 0 ≤ v then .pos v.toNat else .neg v

/-- serde_json map-key serialization: string keys verbatim, integer keys as
decimal strings, anything else fails with a key-must-be-a-string error
(surfaced through the IndexError conversion of the serialization error). -/
def json_key : Value → Except IndexError String
  | .str s => .ok s
  | .u8 n | .u16 n | .u32 n | .u64 n => .ok (toString n)
  | .i8 v | .i16 v | .i32 v | .i64 v => .ok (toString v)
  | _ => .error ⟨"Unable to serialize data", "key must be a string"⟩

/- serde_json::to_string on a serde_value::Value, as used at the top of
insert_struct and inside the insert_structs loop. -/
mutual
/-- serde_json serialization of a value. -/
def value_to_json : Value → Except IndexError Json
  | .null => .ok .null
  | .bool b => .ok (.bool b)
  | .str s => .ok (.str s)
  | .u8 n => .ok (.num (.pos n))
  | .u16 n => .ok (.num (.pos n))
  | .u32 n => .ok (.num (.pos n))
  | .u64 n => .ok (.num (.pos n))
  | .i8 v => .ok (.num (int_num v))
  | .i16 v => .ok (.num (int_num v))
  | .i32 v => .ok (.num (int_num v))
  | .i64 v => .ok (.num (int_num v))
  | .f32 q => .ok (.num (.flt q))
  | .f64 q => .ok (.num (.flt q))
  | .char c => .ok (.str (String.mk [c]))
  | .bytes bs => .ok (.arr (bs.map (fun b => .num (.pos b))))
  | .seq l => do
      let r ← list_to_json l
      .ok (.arr r)
  | .map kv => do
      let r ← kvs_to_json kv
      .ok (.obj r)
/-- serde_json serialization of a sequence of values. -/
def list_to_json : ValueList → Except IndexError (List Json)
  | .nil => .ok []
  | .cons v rest => do
      let j ← value_to_json v
      let r ← list_to_json rest
      .ok (j :: r)
/-- serde_json serialization of the entries of a value map. -/
def kvs_to_json : ValueKVs → Except IndexError (List (String × Json))
  | .nil => .ok []
  | .cons k v rest => do
      let ks ← json_key k
      let j ← value_to_json v
      let r ← kvs_to_json rest
      .ok ((ks, j) :: r)
end

/-- A tantivy document field value (tantivy::schema::Value). -/
inductive SchemaValue where
  | str : String → SchemaValue
  | u64 : Nat → SchemaValue
  | i64 : Int → SchemaValue
  | f64 : Rat → SchemaValue
  | bytes : List Nat → SchemaValue
deriving DecidableEq, Repr

/-- serde serialization of a tantivy field value, as used when jsonify
serializes its name-to-value map. -/
def schema_value_to_json : SchemaValue → Json
  | .str s => .str s
  | .u64 n => .num (.pos n)
  | .i64 v => .num (int_num v)
  | .f64 q => .num (.flt q)
  | .bytes bs => .arr (bs.map (fun b => .num (.pos b)))

/-- An engine document: field values in insertion order, each tagged with
the ordinal of its field in the schema. -/
abbrev Doc := List (Nat × SchemaValue)

/-- Locate a field by name in a schema, returning its ordinal and entry;
models tantivy Schema::get_field plus get_field_entry. -/
def find_field : Nat → Schema → String → Option (Nat × FieldEntry)
  | _, [], _ => none
  | i, e :: rest, name =>
    if e.name = name then some (i, e) else find_field (i + 1) rest name

def get_field (schema : Schema) (name : String) : Option (Nat × FieldEntry) :=
  find_field 0 schema name

def jnum_to_rat : JNum → Rat
  | .pos n => (n : Rat)
  | .neg v => (v : Rat)
  | .flt q => q

/-- tantivy FieldType::value_from_json for the engine versions this layer
targets: text fields accept strings, numeric fields accept numbers of the
right signedness, bytes fields cannot be parsed from JSON. -/
def value_from_json (ft : FieldType) (j : Json) : Except IndexError SchemaValue :=
  match ft with
  | .text _ =>
    match j with
    | .str s => .ok (.str s)
    | _ => .error ⟨"Unable to parse document", "Expected a string"⟩
  | .u64 _ =>
    match j with
    | .num (.pos n) => .ok (.u64 n)
    | _ => .error ⟨"Unable to parse document", "Expected a u64 number"⟩
  | .i64 _ =>
    match j with
    | .num (.pos n) =>
      if n ≤ 2 ^ 63 - 1 then .ok (.i64 (n : Int))
      else .error ⟨"Unable to parse document", "Expected an i64 number"⟩
    | .num (.neg v) => .ok (.i64 v)
    | _ => .error ⟨"Unable to parse document", "Expected an i64 number"⟩
  | .f64 _ =>
    match j with
    | .num x => .ok (.f64 (jnum_to_rat x))
    | _ => .error ⟨"Unable to parse document", "Expected an f64 number"⟩
  | .bytes => .error ⟨"Unable to parse document", "Bytes field values cannot be parsed from JSON"⟩

/-- One JSON array entry list parsed against a single field: tantivy adds
one field value per array item. -/
def parse_values (ft : FieldType) (f : Nat) : List Json → Except IndexError Doc
  | [] => .ok []
  | j :: rest => do
      let v ← value_from_json ft j
      let r ← parse_values ft f rest
      .ok ((f, v) :: r)

/-- The entry loop of tantivy Schema::parse_document: each JSON object
entry must name a schema field, and its value is parsed against that field
type (arrays item by item). -/
def parse_entries (schema : Schema) : List (String × Json) → Except IndexError Doc
  | [] => .ok []
  | (name, jv) :: rest =>
    match get_field schema name with
    | none => .error ⟨"Unable to parse document", "No such field in schema: " ++ name⟩
    | some fe =>
      match jv with
      | .arr items => do
          let vs ← parse_values fe.2.ftype fe.1 items
          let r ← parse_entries schema rest
          .ok (vs ++ r)
      | _ => do
          let v ← value_from_json fe.2.ftype jv
          let r ← parse_entries schema rest
          .ok ((fe.1, v) :: r)

/-- tantivy Schema::parse_document: the serialized record must be a JSON
object. -/
def parse_document (schema : Schema) (j : Json) : Except IndexError Doc :=
  match j with
  | .obj entries => parse_entries schema entries
  | _ => .error ⟨"Unable to parse document", "The document must be a JSON object"⟩

/-- Modelled from the spec (section 6): the engine tokenizer; terms are the
whitespace-separated words of the text.  Written as structural recursion
over the character list so that it evaluates inside the kernel. -/
def split_ws : List Char → List Char → List String
  | [], acc => if acc.isEmpty then [] else [String.mk acc.reverse]
  | c :: rest, acc =>
    if c = ' ' then
      if acc.isEmpty then split_ws rest []
      else String.mk acc.reverse :: split_ws rest []
    else split_ws rest (c :: acc)

def tokens (text : String) : List String :=
  split_ws text.toList []

/-- Modelled from the spec (section 6): the engine query parser bound to
the default fields; the query decomposes into its terms. -/
def parse_query (query : String) : List String :=
  tokens query

def field_indexed : FieldType → Bool
  | .text o => o.indexing
  | .u64 o => o.indexed
  | .i64 o => o.indexed
  | .f64 o => o.indexed
  | .bytes => false

def field_stored : FieldType → Bool
  | .text o => o.stored
  | .u64 o => o.stored
  | .i64 o => o.stored
  | .f64 o => o.stored
  | .bytes => true

/-- Modelled from the spec (section 6): a document matches the parsed query
when some term occurs among the tokens of some indexed text value of a
default field. -/
def doc_matches (schema : Schema) (default_fields : List Nat) (d : Doc)
    (terms : List String) : Bool :=
  terms.any (fun t => d.any (fun fv =>
    default_fields.contains fv.1 &&
    (match schema[fv.1]? with
     | some e => field_indexed e.ftype
     | none => false) &&
    (match fv.2 with
     | .str s => (tokens s).contains t
     | _ => false)))

/-- An open persistent store for one collection: its schema, its committed
documents in commit order, and the engine-owned relevance scoring function
(opaque to this layer). -/
structure Index where
  schema : Schema
  store : List Doc
  rank : Doc → List String → Rat

/-- registry.rs SurferBuilder. -/
structure SurferBuilder where
  schemas : List (String × Schema)
  home : Option String

/-- registry.rs Surfer: per-collection index, field list and lazily opened
reader and writer handles (absent until first use). -/
structure Surfer where
  home : String
  indexes : List (String × Index)
  fields : List (String × List Nat)
  readers : List (String × Option Unit)
  writers : List (String × Option Unit)

/-- registry.rs TryFrom of SurferBuilder for Surfer, for a fresh home
directory: resolve the home (explicit value, else the fixed default
location), create one store per declared collection with the supplied
schema, record every schema field as a default query field, and leave all
reader and writer handles absent.  The engine ranking function is owned by
the external engine and is passed in as a parameter of the model. -/
def Surfer.try_from (rank : Doc → List String → Rat) (builder : SurferBuilder) : Surfer :=
  let home := builder.home.getD "indexes"
  { home := home
  , indexes := builder.schemas.map (fun p => (p.1, ⟨p.2, [], rank⟩))
  , fields := builder.schemas.map (fun p => (p.1, List.range p.2.length))
  , readers := builder.schemas.map (fun p => (p.1, none))
  , writers := builder.schemas.map (fun p => (p.1, none)) }

/-- registry.rs Surfer::insert_struct: serialize the record first; if the
collection has no writer slot the call is a silent no-op; otherwise open
the writer if absent, parse the serialized record against the schema, add
the document and commit (append to the committed store). -/
def insert_struct (s : Surfer) (name : String) (data : Value) :
    Except IndexError Surfer := do
  let data ← value_to_json data
  match alist_get s.writers name with
  | none => .ok s
  | some w =>
    match alist_get s.indexes name with
    | none => .error ⟨"panic", "index missing for registered writer"⟩
    | some index =>
      let s1 := if w.isNone then { s with writers := alist_put s.writers name (some ()) } else s
      let document ← parse_document index.schema data
      let index1 := { index with store := index.store ++ [document] }
      .ok { s1 with indexes := alist_put s1.indexes name index1 }

/-- The loop body of registry.rs Surfer::insert_structs: serialize and
parse each record of the batch in order. -/
def serialize_documents (schema : Schema) : List Value → Except IndexError (List Doc)
  | [] => .ok []
  | data :: rest => do
      let j ← value_to_json data
      let d ← parse_document schema j
      let r ← serialize_documents schema rest
      .ok (d :: r)

/-- registry.rs Surfer::insert_structs: check the collection before
serializing anything; unknown collections are a silent no-op; otherwise all
documents of the batch are added before a single commit. -/
def insert_structs (s : Surfer) (name : String) (payload : List Value) :
    Except IndexError Surfer :=
  match alist_get s.writers name with
  | none => .ok s
  | some w =>
    match alist_get s.indexes name with
    | none => .error ⟨"panic", "index missing for registered writer"⟩
    | some index =>
      let s1 := if w.isNone then { s with writers := alist_put s.writers name (some ()) } else s
      match serialize_documents index.schema payload with
      | .error e => .error e
      | .ok docs =>
        let index1 := { index with store := index.store ++ docs }
        .ok { s1 with indexes := alist_put s1.indexes name index1 }

/-- tantivy Document::get_sorted_field_values: the document fields in
ascending ordinal order, each paired with its stored values in insertion
order. -/
def get_sorted_field_values (d : Doc) : List (Nat × List SchemaValue) :=
  let ids := List.insertionSort (fun a b => a ≤ b) (d.map Prod.fst).dedup
  ids.map (fun f => (f, (d.filter (fun fv => fv.1 == f)).map Prod.snd))

/-- tantivy Schema::get_field_name: ordinal to name. -/
def get_field_name (schema : Schema) (f : Nat) : String :=
  match schema[f]? with
  | some e => e.name
  | none => ""

/-- Lexicographic strict order on character lists, the order a BTreeMap
keyed by strings uses.  (The library order on String is not used because it
does not evaluate inside the kernel.) -/
def chars_lt : List Char → List Char → Bool
  | [], [] => false
  | [], _ :: _ => true
  | _ :: _, [] => false
  | a :: as1, b :: bs1 => if a = b then chars_lt as1 bs1 else decide (a < b)

/-- Lexicographic strict order on strings. -/
def str_lt (a b : String) : Bool :=
  chars_lt a.toList b.toList

/-- Insertion into the name-keyed BTreeMap jsonify builds: keeps the entry
list strictly sorted by key, replacing an equal key. -/
def btree_insert (k : String) (v : SchemaValue) :
    List (String × SchemaValue) → List (String × SchemaValue)
  | [] => [(k, v)]
  | (k1, v1) :: rest =>
    if str_lt k k1 then (k, v) :: (k1, v1) :: rest
    else if k = k1 then (k, v) :: rest
    else (k1, v1) :: btree_insert k v rest

/-- The field loop of registry.rs Surfer::jsonify: walk the sorted field
groups, take the first stored value of each field, fail if a field has no
value, and collect the survivors into the name-keyed map. -/
def jsonify_groups (schema : Schema) (name : String) :
    List (Nat × List SchemaValue) → List (String × SchemaValue) →
    Except IndexError (List (String × SchemaValue))
  | [], field_map => .ok field_map
  | (field, field_values) :: rest, field_map =>
    let field_name := get_field_name schema field
    match field_values.head? with
    | none =>
      .error ⟨"Unable to jsonify: " ++ name, "Field: " ++ field_name ++ " does not have any value"⟩
    | some fv => jsonify_groups schema name rest (btree_insert field_name fv field_map)

/-- registry.rs Surfer::jsonify: reconstruct the JSON-shaped text of a
retrieved engine document (the SingleValuedNamedFieldDocument serialization
of the name-keyed map). -/
def jsonify (s : Surfer) (name : String) (document : Doc) : Except IndexError Json :=
  match alist_get s.indexes name with
  | none => .error ⟨"panic", "index missing"⟩
  | some index => do
      let fm ← jsonify_groups index.schema name (get_sorted_field_values document) []
      .ok (.obj (fm.map (fun p => (p.1, schema_value_to_json p.2))))

/-- Keep only stored field values; what the engine returns when a document
is fetched by address. -/
def stored_only (schema : Schema) (d : Doc) : Doc :=
  d.filter (fun fv =>
    match schema[fv.1]? with
    | some e => field_stored e.ftype
    | none => false)

/-- Modelled from the spec (section 6): fetch a stored document by result
address; addresses are indices into the committed store. -/
def searcher_doc (index : Index) (addr : Nat) : Except IndexError Doc :=
  match index.store[addr]? with
  | some d => .ok (stored_only index.schema d)
  | none => .error ⟨"Unable to fetch document", "invalid address"⟩

/-- Descending-score order on scored hits. -/
def rank_desc (a b : Rat × Nat) : Prop := b.1 ≤ a.1

instance : DecidableRel rank_desc :=
  fun a b => inferInstanceAs (Decidable (b.1 ≤ a.1))

/-- Modelled from the spec (section 6): the ranked hit list of a query, the
matching documents with their engine scores in descending score order. -/
def ranked_hits (index : Index) (default_fields : List Nat) (terms : List String) :
    List (Rat × Nat) :=
  let scored := (index.store.enum.filter
      (fun p => doc_matches index.schema default_fields p.2 terms)).map
      (fun p => (index.rank p.2 terms, p.1))
  List.insertionSort rank_desc scored

/-- Modelled from the spec (section 6): bounded top-K ranked search, as
executed by searcher.search with the TopDocs collector. -/
def engine_search (index : Index) (default_fields : List Nat) (terms : List String)
    (limit : Nat) : List (Rat × Nat) :=
  (ranked_hits index default_fields terms).take limit

/-- The hit loop of registry.rs Surfer::read_string: drop hits scoring
strictly below the requested minimum, fetch the rest and reconstruct each
one. -/
def collect_docs (s : Surfer) (name : String) (index : Index) (score : Option Rat) :
    List (Rat × Nat) → Except IndexError (List Json)
  | [] => .ok []
  | (doc_score, doc_address) :: rest =>
    let skip : Bool :=
      match score with
      | some m => decide (doc_score < m)
      | none => false
    if skip then collect_docs s name index score rest
    else do
      let doc ← searcher_doc index doc_address
      let doc1 ← jsonify s name doc
      let r ← collect_docs s name index score rest
      .ok (doc1 :: r)

/-- registry.rs Surfer::read_string: nothing for a collection with no
reader slot or no index; otherwise open the reader if absent, bind the
query to the full field list, run top-limit retrieval (limit defaults to
10) and reconstruct the surviving hits. -/
def read_string (s : Surfer) (name : String) (query : String) (limit : Option Nat)
    (score : Option Rat) : Except IndexError (Surfer × Option (List Json)) :=
  match alist_get s.readers name with
  | none => .ok (s, none)
  | some reader =>
    match alist_get s.indexes name with
    | none => .ok (s, none)
    | some index =>
      let s1 := if reader.isNone then { s with readers := alist_put s.readers name (some ()) } else s
      let default_fields := (alist_get s1.fields name).getD []
      let terms := parse_query query
      let lim := match limit with
        | some l => l
        | none => 10
      let top_docs := engine_search index default_fields terms lim
      match collect_docs s1 name index score top_docs with
      | .ok docs => .ok (s1, some docs)
      | .error e => .error e

/-- serde deserialization of one JSON scalar into one field of the caller
struct; the expected shape is given by the corresponding field of the
pattern value (the shallow embedding of the target rust type). -/
def deser_scalar (pattern : Value) (j : Json) : Option Value :=
  match pattern with
  | .str _ =>
    match j with
    | .str s => some (.str s)
    | _ => none
  | .bool _ =>
    match j with
    | .bool b => some (.bool b)
    | _ => none
  | .u8 _ =>
    match j with
    | .num (.pos n) => if n < 2 ^ 8 then some (.u8 n) else none
    | _ => none
  | .u16 _ =>
    match j with
    | .num (.pos n) => if n < 2 ^ 16 then some (.u16 n) else none
    | _ => none
  | .u32 _ =>
    match j with
    | .num (.pos n) => if n < 2 ^ 32 then some (.u32 n) else none
    | _ => none
  | .u64 _ =>
    match j with
    | .num (.pos n) => some (.u64 n)
    | _ => none
  | .i8 _ =>
    match j with
    | .num (.pos n) => if n ≤ 2 ^ 7 - 1 then some (.i8 (n : Int)) else none
    | .num (.neg v) => if -(2 ^ 7) ≤ v then some (.i8 v) else none
    | _ => none
  | .i16 _ =>
    match j with
    | .num (.pos n) => if n ≤ 2 ^ 15 - 1 then some (.i16 (n : Int)) else none
    | .num (.neg v) => if -(2 ^ 15) ≤ v then some (.i16 v) else none
    | _ => none
  | .i32 _ =>
    match j with
    | .num (.pos n) => if n ≤ 2 ^ 31 - 1 then some (.i32 (n : Int)) else none
    | .num (.neg v) => if -(2 ^ 31) ≤ v then some (.i32 v) else none
    | _ => none
  | .i64 _ =>
    match j with
    | .num (.pos n) => some (.i64 (n : Int))
    | .num (.neg v) => some (.i64 v)
    | _ => none
  | .f32 _ =>
    match j with
    | .num x => some (.f32 (jnum_to_rat x))
    | _ => none
  | .f64 _ =>
    match j with
    | .num x => some (.f64 (jnum_to_rat x))
    | _ => none
  | _ => none

/-- serde deserialization of the fields of the caller struct: every field
of the pattern must be present in the JSON object with a value of the
right shape. -/
def deser_fields (entries : List (String × Json)) : ValueKVs → Option ValueKVs
  | .nil => some .nil
  | .cons k v rest => do
      let ks ← (match k with
        | Value.str s => some s
        | _ => none)
      let jv ← alist_get entries ks
      let w ← deser_scalar v jv
      let r ← deser_fields entries rest
      some (ValueKVs.cons k w r)

/-- serde_json::from_str into the caller type, whose shape is the shallow
embedding pattern. -/
def deser_record (pattern : Value) (j : Json) : Option Value :=
  match pattern, j with
  | .map pkv, .obj entries => (deser_fields entries pkv).map Value.map
  | _, _ => none

/-- The hit loop of registry.rs Surfer::read_structs: as for read_string,
then deserialize each reconstructed text into the caller type.  The source
unwraps the deserialization (aborting the process on a shape mismatch);
the abort is modelled as an error value. -/
def collect_structs (pattern : Value) (s : Surfer) (name : String) (index : Index)
    (score : Option Rat) : List (Rat × Nat) → Except IndexError (List Value)
  | [] => .ok []
  | (doc_score, doc_address) :: rest =>
    let skip : Bool :=
      match score with
      | some m => decide (doc_score < m)
      | none => false
    if skip then collect_structs pattern s name index score rest
    else do
      let doc ← searcher_doc index doc_address
      let doc1 ← jsonify s name doc
      let v ← (match deser_record pattern doc1 with
        | some v => Except.ok v
        | none => Except.error (⟨"panic", "unable to deserialize the document"⟩ : IndexError))
      let r ← collect_structs pattern s name index score rest
      .ok (v :: r)

/-- registry.rs Surfer::read_structs (same body as read_string, plus the
per-hit deserialization into the caller type). -/
def read_structs (pattern : Value) (s : Surfer) (name : String) (query : String)
    (limit : Option Nat) (score : Option Rat) :
    Except IndexError (Surfer × Option (List Value)) :=
  match alist_get s.readers name with
  | none => .ok (s, none)
  | some reader =>
    match alist_get s.indexes name with
    | none => .ok (s, none)
    | some index =>
      let s1 := if reader.isNone then { s with readers := alist_put s.readers name (some ()) } else s
      let default_fields := (alist_get s1.fields name).getD []
      let terms := parse_query query
      let lim := match limit with
        | some l => l
        | none => 10
      let top_docs := engine_search index default_fields terms lim
      match collect_structs pattern s1 name index score top_docs with
      | .ok docs => .ok (s1, some docs)
      | .error e => .error e

/-! Derived notions used to state the claims. -/

/-- The string of a string-variant key (placeholder for other variants). -/
def key_str : Value → String
  | .str s => s
  | _ => ""

def is_str_key : Value → Bool
  | .str _ => true
  | _ => false

def kvs_keys : ValueKVs → List String
  | .nil => []
  | .cons k _ rest => key_str k :: kvs_keys rest

/-- The entries of a value map as a plain list of string-keyed pairs. -/
def kvs_to_list : ValueKVs → List (String × Value)
  | .nil => []
  | .cons k v rest => (key_str k, v) :: kvs_to_list rest

/-- A record field value that round-trips through the engine: a string or a
number within the bounds of its width (the bounds are invariants of the
rust integer types the record carries). -/
def good_scalar : Value → Bool
  | .str _ => true
  | .u8 n => decide (n < 2 ^ 8)
  | .u16 n => decide (n < 2 ^ 16)
  | .u32 n => decide (n < 2 ^ 32)
  | .u64 n => decide (n < 2 ^ 64)
  | .i8 v => decide (-(2 ^ 7) ≤ v) && decide (v < 2 ^ 7)
  | .i16 v => decide (-(2 ^ 15) ≤ v) && decide (v < 2 ^ 15)
  | .i32 v => decide (-(2 ^ 31) ≤ v) && decide (v < 2 ^ 31)
  | .i64 v => decide (-(2 ^ 63) ≤ v) && decide (v < 2 ^ 63)
  | .f32 _ => true
  | .f64 _ => true
  | _ => false

/-- All keys are string variants and all values are in-bounds scalars. -/
def kvs_good : ValueKVs → Bool
  | .nil => true
  | .cons k v rest => is_str_key k && good_scalar v && kvs_good rest

/-- Pairwise strict ascending order of a string list (the canonical form of
BTreeMap keys). -/
def str_pairwise_lt : List String → Bool
  | [] => true
  | a :: rest => rest.all (fun b => str_lt a b) && str_pairwise_lt rest

/-- Every term of the query occurs among the tokens of some text field of
the record, and the query has at least one term. -/
def query_matches (kv : ValueKVs) (q : String) : Bool :=
  !(parse_query q).isEmpty &&
  (parse_query q).all (fun t => (kvs_to_list kv).any (fun p =>
    match p.2 with
    | Value.str s => (tokens s).contains t
    | _ => false))

/-- The coarse field kind, forgetting options. -/
inductive Kind where
  | text : Kind
  | u64 : Kind
  | i64 : Kind
  | f64 : Kind
  | bytes : Kind
  | unhandled : Kind
deriving DecidableEq, Repr

def kind_of : FieldType → Kind
  | .text _ => .text
  | .u64 _ => .u64
  | .i64 _ => .i64
  | .f64 _ => .f64
  | .bytes => .bytes

/-- Transcribed from the fixed classification table the claim states (spec
side, to be compared with the behaviour of as_schema_builder): String and
Bool map to Text, unsigned widths to U64, signed widths to I64, floats to
F64, Sequence to Bytes, and Null or anything else is unhandled. -/
def spec_kind_table : Value → Kind
  | .str _ => .text
  | .bool _ => .text
  | .u8 _ | .u16 _ | .u32 _ | .u64 _ => .u64
  | .i8 _ | .i16 _ | .i32 _ | .i64 _ => .i64
  | .f32 _ | .f64 _ => .f64
  | .seq _ => .bytes
  | _ => .unhandled

def kvs_all_string_keys : ValueKVs → Bool
  | .nil => true
  | .cons k _ rest => is_str_key k && kvs_all_string_keys rest

def kvs_all_handled : ValueKVs → Bool
  | .nil => true
  | .cons _ v rest => decide (spec_kind_table v ≠ Kind.unhandled) && kvs_all_handled rest

def kvs_kinds : ValueKVs → List (String × Kind)
  | .nil => []
  | .cons k v rest => (key_str k, spec_kind_table v) :: kvs_kinds rest

/-- The field type as_schema_builder assigns to a classified entry. -/
def entry_ftype (control : Option (List (String × Control))) (k : String) :
    Value → FieldType
  | .str _ => .text (resolve_text_option k control)
  | .bool _ => .text (resolve_text_option k control)
  | .u8 _ | .u16 _ | .u32 _ | .u64 _ => .u64 (resolve_number_option k control)
  | .i8 _ | .i16 _ | .i32 _ | .i64 _ => .i64 (resolve_number_option k control)
  | .f32 _ | .f64 _ => .f64 (resolve_number_option k control)
  | .seq _ => .bytes
  | _ => .bytes

/-- The schema as_schema_builder produces on well-formed input. -/
def schema_of (control : Option (List (String × Control)))
    (l : List (String × Value)) : Schema :=
  l.map (fun p => ⟨p.1, entry_ftype control p.1 p.2⟩)

/-- The serde_json form of a scalar field value. -/
def scalar_json : Value → Json
  | .str s => .str s
  | .u8 n | .u16 n | .u32 n | .u64 n => .num (.pos n)
  | .i8 v | .i16 v | .i32 v | .i64 v => .num (int_num v)
  | .f32 q | .f64 q => .num (.flt q)
  | _ => .null

/-- The engine field value a scalar parses to. -/
def scalar_sv : Value → SchemaValue
  | .str s => .str s
  | .u8 n | .u16 n | .u32 n | .u64 n => .u64 n
  | .i8 v | .i16 v | .i32 v | .i64 v => .i64 v
  | .f32 q | .f64 q => .f64 q
  | _ => .bytes []

def json_of (l : List (String × Value)) : List (String × Json) :=
  l.map (fun p => (p.1, scalar_json p.2))

def svs (l : List (String × Value)) : List SchemaValue :=
  l.map (fun p => scalar_sv p.2)

/-! Concrete fixtures used to instantiate the theorems. -/

/-- A fixed engine ranking for the fixtures (the engine owns ranking). -/
def fix_rank : Doc → List String → Rat := fun _ _ => 1

def fix_schema : Schema := [⟨"body", .text TEXT_STORED⟩, ⟨"count", .u64 ⟨true, true⟩⟩]

def fix_kv : ValueKVs :=
  .cons (.str "body") (.str "hello world") (.cons (.str "count") (.u64 3) .nil)

def fix_record : Value := .map fix_kv

def fix_surfer : Surfer := Surfer.try_from fix_rank ⟨[("books", fix_schema)], some "tmp"⟩

/-- A record whose serde_json serialization fails: its map key is not a
string (in rust, for example a struct serializing a map keyed by tuples). -/
def bad_record : Value := .map (.cons (.seq .nil) (.bool true) .nil)

def bool_kv : ValueKVs :=
  .cons (.str "flag") (.bool true) (.cons (.str "txt") (.str "hello") .nil)

def bool_record : Value := .map bool_kv

def bool_schema : Schema := [⟨"flag", .text TEXT_STORED⟩, ⟨"txt", .text TEXT_STORED⟩]

def bool_surfer : Surfer := Surfer.try_from fix_rank ⟨[("books", bool_schema)], some "tmp"⟩

/-- A schema whose field ordinals are not in name order. -/
def swap_schema : Schema := [⟨"b", .text TEXT_STORED⟩, ⟨"a", .text TEXT_STORED⟩]

def swap_doc : Doc := [(0, .str "x"), (1, .str "y")]

def sorted_schema : Schema := [⟨"a", .text TEXT_STORED⟩, ⟨"b", .text TEXT_STORED⟩]

def one_field_schema : Schema := [⟨"t", .text TEXT_STORED⟩]

def hello_doc : Doc := [(0, SchemaValue.str "hello")]

/-- An open store holding twelve identical committed documents. -/
def many_index : Index := ⟨one_field_schema, List.replicate 12 hello_doc, fix_rank⟩

/-- A registered collection holding twelve identical committed documents,
with reader and writer not yet opened. -/
def many_surfer : Surfer :=
  ⟨"tmp", [("c", many_index)], [("c", [0])], [("c", none)], [("c", none)]⟩

/-- The surfer above after its reader has been opened by a first read. -/
def many_surfer_opened : Surfer :=
  ⟨"tmp", [("c", many_index)], [("c", [0])], [("c", some ())], [("c", none)]⟩

def hello_json : Json := Json.obj [("t", Json.str "hello")]

def null_kv : ValueKVs := .cons (.str "n") .null .nil

def nonstr_key_kv : ValueKVs := .cons (.u64 1) (.str "x") .nil

/-! Helper lemmas. -/

lemma except_bind_ok {ε α β : Type} (a : α) (f : α → Except ε β) :
    (Except.ok a : Except ε α) >>= f = f a := rfl

lemma except_bind_err {ε α β : Type} (e : ε) (f : α → Except ε β) :
    (Except.error e : Except ε α) >>= f = .error e := rfl

/-- The schema builder succeeds exactly on maps with string keys and
classifiable values, and then produces one field per entry. -/
lemma build_fields_spec (control : Option (List (String × Control))) :
    ∀ kv : ValueKVs,
      (kvs_all_string_keys kv = true → kvs_all_handled kv = true →
        build_fields control kv = .ok (schema_of control (kvs_to_list kv))) ∧
      (kvs_all_string_keys kv = false ∨ kvs_all_handled kv = false →
        ∃ e, build_fields control kv = .error e)
  | .nil => by
    refine ⟨fun _ _ => rfl, ?_⟩
    simp [kvs_all_string_keys, kvs_all_handled]
  | .cons k v rest => by
    obtain ⟨ihok, iherr⟩ := build_fields_spec control rest
    constructor
    · intro hs hh
      cases k <;> simp [kvs_all_string_keys, is_str_key] at hs
      simp only [kvs_all_handled, Bool.and_eq_true, decide_eq_true_eq] at hh
      obtain ⟨hv, hh⟩ := hh
      have hr := ihok hs hh
      cases v <;> simp [spec_kind_table] at hv <;>
        simp [build_fields, hr, except_bind_ok, schema_of, kvs_to_list, key_str, entry_ftype]
    · intro h
      cases k with
      | str ks =>
        cases v
        case null => exact ⟨_, rfl⟩
        case char c => exact ⟨_, rfl⟩
        case bytes bs => exact ⟨_, rfl⟩
        case map kv2 => exact ⟨_, rfl⟩
        all_goals simp [kvs_all_string_keys, is_str_key, kvs_all_handled, spec_kind_table] at h
        all_goals obtain ⟨e, he⟩ := iherr h
        all_goals exact ⟨e, by simp [build_fields, he, except_bind_err]⟩
      | null => exact ⟨_, rfl⟩
      | bool b => exact ⟨_, rfl⟩
      | u8 n => exact ⟨_, rfl⟩
      | u16 n => exact ⟨_, rfl⟩
      | u32 n => exact ⟨_, rfl⟩
      | u64 n => exact ⟨_, rfl⟩
      | i8 n => exact ⟨_, rfl⟩
      | i16 n => exact ⟨_, rfl⟩
      | i32 n => exact ⟨_, rfl⟩
      | i64 n => exact ⟨_, rfl⟩
      | f32 q => exact ⟨_, rfl⟩
      | f64 q => exact ⟨_, rfl⟩
      | char c => exact ⟨_, rfl⟩
      | bytes bs => exact ⟨_, rfl⟩
      | seq l => exact ⟨_, rfl⟩
      | map kv2 => exact ⟨_, rfl⟩

lemma kvs_good_string_keys : ∀ kv : ValueKVs, kvs_good kv = true →
    kvs_all_string_keys kv = true
  | .nil, _ => rfl
  | .cons k v rest, h => by
    simp only [kvs_good, Bool.and_eq_true] at h
    simp only [kvs_all_string_keys, Bool.and_eq_true]
    exact ⟨h.1.1, kvs_good_string_keys rest h.2⟩

lemma good_scalar_handled (v : Value) (h : good_scalar v = true) :
    spec_kind_table v ≠ Kind.unhandled := by
  cases v <;> simp_all [good_scalar, spec_kind_table]

lemma kvs_good_handled : ∀ kv : ValueKVs, kvs_good kv = true →
    kvs_all_handled kv = true
  | .nil, _ => rfl
  | .cons k v rest, h => by
    simp only [kvs_good, Bool.and_eq_true] at h
    simp only [kvs_all_handled, Bool.and_eq_true, decide_eq_true_eq]
    exact ⟨good_scalar_handled v h.1.2, kvs_good_handled rest h.2⟩

lemma kind_of_entry_ftype (control : Option (List (String × Control))) (k : String)
    (v : Value) (hv : spec_kind_table v ≠ Kind.unhandled) :
    kind_of (entry_ftype control k v) = spec_kind_table v := by
  cases v <;> simp_all [entry_ftype, kind_of, spec_kind_table]

lemma kinds_of_schema_of (control : Option (List (String × Control))) :
    ∀ kv : ValueKVs, kvs_all_handled kv = true →
      (schema_of control (kvs_to_list kv)).map (fun e => (e.name, kind_of e.ftype)) =
        kvs_kinds kv
  | .nil, _ => rfl
  | .cons k v rest, h => by
    simp only [kvs_all_handled, Bool.and_eq_true, decide_eq_true_eq] at h
    simp only [kvs_to_list, schema_of, List.map_cons, kvs_kinds]
    refine congrArg₂ _ ?_ ?_
    · simp [kind_of_entry_ftype control (key_str k) v h.1]
    · exact kinds_of_schema_of control rest h.2

/-! The claims. -/

/-- C3: for every top-level map whose keys are all string variants, schema
inference produces one field per key, its kind fixed solely by the value
variant according to the table (String and Bool to Text, unsigned widths
to U64, signed widths to I64, floats to F64, Sequence to Bytes), while a
Null or any other unhandled variant makes inference fail with an error. -/
theorem schema_inference_table (control : Option (List (String × Control)))
    (kv : ValueKVs) (hkeys : kvs_all_string_keys kv = true) :
    (kvs_all_handled kv = true →
      ∃ schema, as_schema_builder (.map kv) control = .ok schema ∧
        schema.map (fun e => (e.name, kind_of e.ftype)) = kvs_kinds kv) ∧
    (kvs_all_handled kv = false →
      ∃ e, as_schema_builder (.map kv) control = .error e) := by
  constructor
  · intro hh
    exact ⟨schema_of control (kvs_to_list kv), (build_fields_spec control kv).1 hkeys hh,
      kinds_of_schema_of control kv hh⟩
  · intro hh
    exact (build_fields_spec control kv).2 (Or.inr hh)

theorem schema_inference_table_witness :
    kvs_all_string_keys fix_kv = true ∧ kvs_all_handled fix_kv = true ∧
    (∃ schema, as_schema_builder (.map fix_kv) none = .ok schema ∧
      schema.map (fun e => (e.name, kind_of e.ftype)) = kvs_kinds fix_kv) ∧
    kvs_all_string_keys null_kv = true ∧ kvs_all_handled null_kv = false ∧
    (∃ e, as_schema_builder (.map null_kv) none = .error e) :=
  ⟨rfl, rfl, (schema_inference_table none fix_kv rfl).1 rfl, rfl, rfl,
   (schema_inference_table none null_kv rfl).2 rfl⟩

/-- C8: option resolution returns the fixed stored and indexed default when
the override table is absent, has no entry for the name, or has an entry of
a mismatched kind (silently, never an error); a matching entry is returned
verbatim, including one with stored unset. -/
theorem option_resolution_spec (k : String) (c : List (String × Control))
    (t : TextOptions) (n : IntOptions) :
    (resolve_text_option k none = TEXT_STORED ∧
     resolve_number_option k none = ⟨true, true⟩) ∧
    (alist_get c k = none →
      resolve_text_option k (some c) = TEXT_STORED ∧
      resolve_number_option k (some c) = ⟨true, true⟩) ∧
    (alist_get c k = some (.ControlIntOptions n) →
      resolve_text_option k (some c) = TEXT_STORED) ∧
    (alist_get c k = some (.ControlTextOptions t) →
      resolve_number_option k (some c) = ⟨true, true⟩) ∧
    (alist_get c k = some (.ControlTextOptions t) →
      resolve_text_option k (some c) = t) ∧
    (alist_get c k = some (.ControlIntOptions n) →
      resolve_number_option k (some c) = n) := by
  refine ⟨⟨rfl, rfl⟩, fun h => ⟨?_, ?_⟩, fun h => ?_, fun h => ?_, fun h => ?_, fun h => ?_⟩ <;>
    simp [resolve_text_option, resolve_number_option, h]

theorem option_resolution_spec_witness :
    alist_get [("f", Control.ControlTextOptions ⟨true, false⟩)] "f" =
      some (Control.ControlTextOptions ⟨true, false⟩) ∧
    resolve_text_option "f" (some [("f", Control.ControlTextOptions ⟨true, false⟩)]) =
      ⟨true, false⟩ ∧
    resolve_number_option "f" (some [("f", Control.ControlTextOptions ⟨true, false⟩)]) =
      ⟨true, true⟩ :=
  ⟨rfl,
   (option_resolution_spec "f" [("f", Control.ControlTextOptions ⟨true, false⟩)]
     ⟨true, false⟩ ⟨true, true⟩).2.2.2.2.1 rfl,
   (option_resolution_spec "f" [("f", Control.ControlTextOptions ⟨true, false⟩)]
     ⟨true, false⟩ ⟨true, true⟩).2.2.2.1 rfl⟩

/-- C9: schema inference fails (never returning a schema) for every input
that is not a map, and for every map containing at least one key that is
not a string variant. -/
theorem schema_inference_rejects (control : Option (List (String × Control))) :
    (∀ v : Value, (∀ kv : ValueKVs, v ≠ .map kv) →
      as_schema_builder v control = .error ⟨"Unable to create schema", "Invalid JSON"⟩) ∧
    (∀ kv : ValueKVs, kvs_all_string_keys kv = false →
      ∃ e, as_schema_builder (.map kv) control = .error e) := by
  constructor
  · intro v hv
    cases v
    case map kv => exact absurd rfl (hv kv)
    all_goals rfl
  · intro kv h
    exact (build_fields_spec control kv).2 (Or.inl h)

theorem schema_inference_rejects_witness :
    as_schema_builder (Value.u64 5) none =
      .error ⟨"Unable to create schema", "Invalid JSON"⟩ ∧
    kvs_all_string_keys nonstr_key_kv = false ∧
    (∃ e, as_schema_builder (.map nonstr_key_kv) none = .error e) :=
  ⟨(schema_inference_rejects none).1 (Value.u64 5) (fun _ h => Value.noConfusion h), rfl,
   (schema_inference_rejects none).2 nonstr_key_kv rfl⟩

/-- C10: insert_struct serializes the record before the unknown-collection
check, so a record whose serialization fails yields that serialization
error even for a never-registered collection, whereas insert_structs checks
the collection first and succeeds on an unknown collection without
serializing any record of the batch. -/
theorem insert_unknown_serialization_asymmetry :
    (∀ (s : Surfer) (name : String) (data : Value) (e : IndexError),
      alist_get s.writers name = none → value_to_json data = .error e →
      insert_struct s name data = .error e) ∧
    (∀ (s : Surfer) (name : String) (payload : List Value),
      alist_get s.writers name = none → insert_structs s name payload = .ok s) := by
  constructor
  · intro s name data e hw hj
    simp [insert_struct, hj, except_bind_err]
  · intro s name payload hw
    simp [insert_structs, hw]

/-- C2 counterexample: for the never-registered collection "ghost", an
insert of a record whose serialization fails does not return Ok; the claim
as stated quantifies over every record. -/
theorem unknown_write_not_ok_cex :
    alist_get fix_surfer.writers "ghost" = none ∧
    alist_get fix_surfer.readers "ghost" = none ∧
    insert_struct fix_surfer "ghost" bad_record =
      .error ⟨"Unable to serialize data", "key must be a string"⟩ ∧
    (insert_struct fix_surfer "ghost" bad_record).isOk = false :=
  ⟨rfl, rfl, rfl, rfl⟩

/-- C2 (amended): for every collection name that was never registered and
every record whose serialization succeeds, insert_struct returns Ok without
mutating any state, while read_string and read_structs return Ok(None),
distinguishable from the Ok(Some(empty list)) a registered collection
returns on zero matching results. -/
theorem unknown_collection_asymmetry
    (s : Surfer) (name : String) (data : Value) (j : Json) (q : String)
    (lim : Option Nat) (sc : Option Rat) (pattern : Value)
    (hw : alist_get s.writers name = none)
    (hr : alist_get s.readers name = none)
    (hj : value_to_json data = .ok j) :
    insert_struct s name data = .ok s ∧
    read_string s name q lim sc = .ok (s, none) ∧
    read_structs pattern s name q lim sc = .ok (s, none) ∧
    ((none : Option (List Json)) ≠ some []) ∧
    (∀ (s2 : Surfer) (name2 q2 : String) (r : Option Unit) (ix : Index),
      alist_get s2.readers name2 = some r → alist_get s2.indexes name2 = some ix →
      ranked_hits ix ((alist_get s2.fields name2).getD []) (parse_query q2) = [] →
      ∃ s3, read_string s2 name2 q2 lim sc = .ok (s3, some [])) := by
  refine ⟨?_, ?_, ?_, by simp, ?_⟩
  · simp [insert_struct, hj, except_bind_ok, hw]
  · simp [read_string, hr]
  · simp [read_structs, hr]
  · intro s2 name2 q2 r ix h1 h2 h3
    cases r with
    | none =>
      refine ⟨{ s2 with readers := alist_put s2.readers name2 (some ()) }, ?_⟩
      simp [read_string, h1, h2, engine_search, h3, collect_docs]
    | some u =>
      refine ⟨s2, ?_⟩
      simp [read_string, h1, h2, engine_search, h3, collect_docs]

theorem unknown_collection_asymmetry_witness :
    alist_get fix_surfer.writers "ghost" = none ∧
    alist_get fix_surfer.readers "ghost" = none ∧
    value_to_json fix_record =
      .ok (.obj [("body", .str "hello world"), ("count", .num (.pos 3))]) ∧
    insert_struct fix_surfer "ghost" fix_record = .ok fix_surfer ∧
    read_string fix_surfer "ghost" "sea whale" none none = .ok (fix_surfer, none) ∧
    (∃ s3, read_string fix_surfer "books" "zzz" none none = .ok (s3, some [])) := by
  have h := unknown_collection_asymmetry fix_surfer "ghost" fix_record
    (.obj [("body", .str "hello world"), ("count", .num (.pos 3))])
    "sea whale" none none fix_record rfl rfl rfl
  exact ⟨rfl, rfl, rfl, h.1, h.2.1, h.2.2.2.2 fix_surfer "books" "zzz" none _ rfl rfl rfl⟩

theorem insert_unknown_serialization_asymmetry_witness :
    alist_get fix_surfer.writers "ghost" = none ∧
    value_to_json bad_record = .error ⟨"Unable to serialize data", "key must be a string"⟩ ∧
    insert_struct fix_surfer "ghost" bad_record =
      .error ⟨"Unable to serialize data", "key must be a string"⟩ ∧
    insert_structs fix_surfer "ghost" [bad_record] = .ok fix_surfer :=
  ⟨rfl, rfl,
   insert_unknown_serialization_asymmetry.1 fix_surfer "ghost" bad_record _ rfl rfl,
   insert_unknown_serialization_asymmetry.2 fix_surfer "ghost" [bad_record] rfl⟩

lemma chars_lt_irrefl : ∀ x : List Char, chars_lt x x = false
  | [] => rfl
  | c :: rest => by simp [chars_lt, chars_lt_irrefl rest]

lemma chars_lt_asymm : ∀ x y : List Char, chars_lt x y = true → chars_lt y x = false
  | [], [] => by simp [chars_lt]
  | [], _ :: _ => by simp [chars_lt]
  | _ :: _, [] => by simp [chars_lt]
  | a :: as1, b :: bs1 => by
    simp only [chars_lt]
    intro h
    by_cases hab : a = b
    · subst hab
      rw [if_pos rfl] at h ⊢
      exact chars_lt_asymm as1 bs1 h
    · rw [if_neg hab] at h
      rw [if_neg (Ne.symm hab), decide_eq_false_iff_not]
      exact lt_asymm (of_decide_eq_true h)

lemma str_lt_irrefl (a : String) : str_lt a a = false :=
  chars_lt_irrefl _

lemma str_lt_asymm {a b : String} (h : str_lt a b = true) : str_lt b a = false :=
  chars_lt_asymm _ _ h

lemma str_lt_ne {a b : String} (h : str_lt a b = true) : a ≠ b := by
  intro he
  rw [he, str_lt_irrefl] at h
  exact Bool.false_ne_true h

lemma btree_insert_append (k : String) (v : SchemaValue) :
    ∀ l : List (String × SchemaValue), (∀ p ∈ l, str_lt p.1 k = true) →
      btree_insert k v l = l ++ [(k, v)]
  | [], _ => rfl
  | (k1, v1) :: rest, h => by
    have h1 : str_lt k1 k = true := h (k1, v1) (List.mem_cons_self _ _)
    have hk : str_lt k k1 = false := str_lt_asymm h1
    have hne : k ≠ k1 := Ne.symm (str_lt_ne h1)
    simp only [btree_insert, hk, Bool.false_eq_true, if_false, if_neg hne, List.cons_append,
      List.cons.injEq, true_and]
    exact btree_insert_append k v rest (fun p hp => h p (List.mem_cons_of_mem _ hp))

lemma alist_get_btree_insert_self (k : String) (v : SchemaValue) :
    ∀ l, alist_get (btree_insert k v l) k = some v
  | [] => by simp [btree_insert, alist_get]
  | (k1, v1) :: rest => by
    cases hb : str_lt k k1 with
    | true => simp [btree_insert, hb, alist_get]
    | false =>
      by_cases h2 : k = k1
      · simp [btree_insert, hb, h2, alist_get, str_lt_irrefl]
      · simp only [btree_insert, hb, Bool.false_eq_true, if_false, if_neg h2, alist_get,
          if_neg (Ne.symm h2)]
        exact alist_get_btree_insert_self k v rest

lemma alist_get_btree_insert_ne (k key : String) (v : SchemaValue) (hne : key ≠ k) :
    ∀ l, alist_get (btree_insert k v l) key = alist_get l key
  | [] => by simp [btree_insert, alist_get, Ne.symm hne]
  | (k1, v1) :: rest => by
    cases hb : str_lt k k1 with
    | true => simp [btree_insert, hb, alist_get, Ne.symm hne]
    | false =>
      by_cases h2 : k = k1
      · subst h2
        simp [btree_insert, hb, alist_get, Ne.symm hne]
      · simp only [btree_insert, hb, Bool.false_eq_true, if_false, if_neg h2, alist_get]
        by_cases h3 : k1 = key
        · simp [h3]
        · simp only [if_neg h3]
          exact alist_get_btree_insert_ne k key v hne rest

lemma jsonify_groups_first_empty (schema : Schema) (name : String) :
    ∀ (groups : List (Nat × List SchemaValue)) (acc : List (String × SchemaValue)),
      (∃ g ∈ groups, g.2 = []) →
      ∃ f, (f, ([] : List SchemaValue)) ∈ groups ∧
        jsonify_groups schema name groups acc =
          .error ⟨"Unable to jsonify: " ++ name,
            "Field: " ++ get_field_name schema f ++ " does not have any value"⟩
  | [], _, h => by simp at h
  | (f, vs) :: rest, acc, h => by
    cases vs with
    | nil => exact ⟨f, List.mem_cons_self _ _, by simp [jsonify_groups]⟩
    | cons v0 vtl =>
      obtain ⟨g, hg, hge⟩ := h
      rcases List.mem_cons.mp hg with he | hg2
      · rw [he] at hge
        simp at hge
      · obtain ⟨f2, hf2, heq⟩ := jsonify_groups_first_empty schema name rest
          (btree_insert (get_field_name schema f) v0 acc) ⟨g, hg2, hge⟩
        refine ⟨f2, List.mem_cons_of_mem _ hf2, ?_⟩
        simpa [jsonify_groups] using heq

lemma jsonify_groups_ok_of_nonempty (schema : Schema) (name : String) :
    ∀ (groups : List (Nat × List SchemaValue)) (acc : List (String × SchemaValue)),
      (∀ g ∈ groups, g.2 ≠ []) →
      ∃ fm, jsonify_groups schema name groups acc = .ok fm
  | [], acc, _ => ⟨acc, rfl⟩
  | (f, vs) :: rest, acc, h => by
    cases vs with
    | nil => exact absurd rfl (h (f, []) (List.mem_cons_self _ _))
    | cons v0 vtl =>
      obtain ⟨fm, hfm⟩ := jsonify_groups_ok_of_nonempty schema name rest
        (btree_insert (get_field_name schema f) v0 acc)
        (fun g hg => h g (List.mem_cons_of_mem _ hg))
      exact ⟨fm, by simpa [jsonify_groups] using hfm⟩

lemma jsonify_groups_preserve (schema : Schema) (name : String) :
    ∀ (groups : List (Nat × List SchemaValue)) (acc fm key),
      jsonify_groups schema name groups acc = .ok fm →
      (∀ g ∈ groups, get_field_name schema g.1 ≠ key) →
      alist_get fm key = alist_get acc key
  | [], acc, fm, key, h, _ => by
    simp only [jsonify_groups, Except.ok.injEq] at h
    rw [h]
  | (f, vs) :: rest, acc, fm, key, h, hk => by
    cases vs with
    | nil => simp [jsonify_groups] at h
    | cons v0 vtl =>
      simp only [jsonify_groups, List.head?] at h
      have hrec := jsonify_groups_preserve schema name rest _ fm key h
        (fun g hg => hk g (List.mem_cons_of_mem _ hg))
      rw [hrec,
        alist_get_btree_insert_ne _ _ _ (Ne.symm (hk (f, v0 :: vtl) (List.mem_cons_self _ _)))]

lemma jsonify_groups_lookup (schema : Schema) (name : String) :
    ∀ (groups : List (Nat × List SchemaValue)) (acc fm),
      jsonify_groups schema name groups acc = .ok fm →
      (groups.map (fun g => get_field_name schema g.1)).Nodup →
      ∀ g ∈ groups, alist_get fm (get_field_name schema g.1) = g.2.head?
  | [], _, _, _, _ => by
    intro g hg
    exact absurd hg (List.not_mem_nil g)
  | (f, vs) :: rest, acc, fm, h, hnd => by
    intro g hg
    cases vs with
    | nil => simp [jsonify_groups] at h
    | cons v0 vtl =>
      simp only [jsonify_groups, List.head?] at h
      simp only [List.map_cons, List.nodup_cons] at hnd
      rcases List.mem_cons.mp hg with he | hg2
      · subst he
        have hpres := jsonify_groups_preserve schema name rest _ fm
          (get_field_name schema f) h (fun g2 hg2 heq => hnd.1 (heq ▸ List.mem_map_of_mem _ hg2))
        rw [hpres, alist_get_btree_insert_self]
        rfl
      · exact jsonify_groups_lookup schema name rest _ fm h hnd.2 g hg2

/-- C4: reconstruction takes the first stored value of each enumerated
field; a field with zero stored values makes it fail with an error naming
the field and the collection; each successfully reconstructed document maps
each field name to exactly that single first value. -/
theorem jsonify_single_valued (schema : Schema) (name : String)
    (groups : List (Nat × List SchemaValue)) :
    ((∃ g ∈ groups, g.2 = []) →
      ∃ f, (f, ([] : List SchemaValue)) ∈ groups ∧
        jsonify_groups schema name groups [] =
          .error ⟨"Unable to jsonify: " ++ name,
            "Field: " ++ get_field_name schema f ++ " does not have any value"⟩) ∧
    ((∀ g ∈ groups, g.2 ≠ []) →
      ∃ fm, jsonify_groups schema name groups [] = .ok fm ∧
        ((groups.map (fun g => get_field_name schema g.1)).Nodup →
          ∀ g ∈ groups, alist_get fm (get_field_name schema g.1) = g.2.head?)) := by
  constructor
  · exact jsonify_groups_first_empty schema name groups []
  · intro hne
    obtain ⟨fm, hfm⟩ := jsonify_groups_ok_of_nonempty schema name groups [] hne
    exact ⟨fm, hfm, fun hnd => jsonify_groups_lookup schema name groups [] fm hfm hnd⟩

theorem jsonify_single_valued_witness :
    (∃ g ∈ [((0 : Nat), ([] : List SchemaValue)), (1, [.str "y"])], g.2 = []) ∧
    (∃ f, (f, ([] : List SchemaValue)) ∈ [((0 : Nat), ([] : List SchemaValue)), (1, [.str "y"])] ∧
      jsonify_groups sorted_schema "c" [(0, []), (1, [.str "y"])] [] =
        .error ⟨"Unable to jsonify: " ++ "c",
          "Field: " ++ get_field_name sorted_schema f ++ " does not have any value"⟩) ∧
    (∃ fm, jsonify_groups sorted_schema "c" [(0, [.str "x", .str "z"]), (1, [.str "y"])] [] =
      .ok fm ∧ alist_get fm "a" = some (.str "x") ∧ alist_get fm "b" = some (.str "y")) := by
  refine ⟨⟨(0, []), by simp, rfl⟩, ?_, ?_⟩
  · exact (jsonify_single_valued sorted_schema "c" [(0, []), (1, [.str "y"])]).1
      ⟨(0, []), by simp, rfl⟩
  · obtain ⟨fm, hfm, hlook⟩ :=
      (jsonify_single_valued sorted_schema "c" [(0, [.str "x", .str "z"]), (1, [.str "y"])]).2
      (by simp)
    refine ⟨fm, hfm, ?_, ?_⟩
    · have := hlook (by simp [get_field_name, sorted_schema]) (0, [.str "x", .str "z"]) (by simp)
      simpa [get_field_name, sorted_schema] using this
    · have := hlook (by simp [get_field_name, sorted_schema]) (1, [.str "y"]) (by simp)
      simpa [get_field_name, sorted_schema] using this

/-- C5 counterexample: for a schema whose field ordinals are not in name
order, the document fields are enumerated in ordinal order (names b then
a), but the serialized name-keyed map follows name order (a then b), not
that same enumeration order. -/
theorem jsonify_order_cex :
    (get_sorted_field_values swap_doc).map (fun g => get_field_name swap_schema g.1) =
      ["b", "a"] ∧
    (jsonify_groups swap_schema "c" (get_sorted_field_values swap_doc) []).map
      (fun fm => fm.map Prod.fst) = .ok ["a", "b"] ∧
    (["a", "b"] : List String) ≠ ["b", "a"] :=
  ⟨rfl, rfl, by decide⟩

lemma get_sorted_fields_ascending (d : Doc) :
    ((get_sorted_field_values d).map Prod.fst).Sorted (fun a b => a ≤ b) ∧
    ((get_sorted_field_values d).map Prod.fst).Nodup := by
  unfold get_sorted_field_values
  simp only [List.map_map]
  have hid : (Prod.fst ∘ fun f => (f, (d.filter (fun fv => fv.1 == f)).map Prod.snd)) =
      id := rfl
  rw [hid, List.map_id]
  constructor
  · exact List.sorted_insertionSort _ _
  · exact (List.perm_insertionSort _ _).nodup_iff.mpr (List.nodup_dedup _)

lemma str_pairwise_head {a : String} {rest : List String}
    (h : str_pairwise_lt (a :: rest) = true) : ∀ b ∈ rest, str_lt a b = true := by
  simp only [str_pairwise_lt, Bool.and_eq_true, List.all_eq_true] at h
  exact h.1

lemma str_pairwise_tail {a : String} {rest : List String}
    (h : str_pairwise_lt (a :: rest) = true) : str_pairwise_lt rest = true := by
  simp only [str_pairwise_lt, Bool.and_eq_true] at h
  exact h.2

lemma jsonify_groups_ascending (schema : Schema) (name : String) :
    ∀ (groups : List (Nat × List SchemaValue)) (acc : List (String × SchemaValue)),
      (∀ g ∈ groups, g.2 ≠ []) →
      (∀ p ∈ acc, ∀ g ∈ groups, str_lt p.1 (get_field_name schema g.1) = true) →
      str_pairwise_lt (groups.map (fun g => get_field_name schema g.1)) = true →
      jsonify_groups schema name groups acc =
        .ok (acc ++ groups.map (fun g => (get_field_name schema g.1, g.2.head?.getD (.str ""))))
  | [], acc, _, _, _ => by simp [jsonify_groups]
  | (f, vs) :: rest, acc, hne, hacc, hsort => by
    cases vs with
    | nil => exact absurd rfl (hne (f, []) (List.mem_cons_self _ _))
    | cons v0 vtl =>
      simp only [List.map_cons] at hsort
      simp only [jsonify_groups, List.head?]
      rw [btree_insert_append _ _ acc
        (fun p hp => hacc p hp (f, v0 :: vtl) (List.mem_cons_self _ _))]
      rw [jsonify_groups_ascending schema name rest (acc ++ [(get_field_name schema f, v0)])
        (fun g hg => hne g (List.mem_cons_of_mem _ hg))
        (by
          intro p hp g hg
          rcases List.mem_append.mp hp with hp1 | hp2
          · exact hacc p hp1 g (List.mem_cons_of_mem _ hg)
          · rw [List.mem_singleton.mp hp2]
            exact str_pairwise_head hsort (get_field_name schema g.1)
              (List.mem_map_of_mem _ hg))
        (str_pairwise_tail hsort)]
      rw [List.append_assoc]
      rfl

/-- C5 (amended): reconstruction enumerates the document fields in
ascending ordinal order (deterministic and schema-defined, not insertion
order), while the serialized name-keyed map follows ascending name order;
the two orders coincide exactly when the schema names along the enumerated
ordinals are themselves ascending, as they are for every inferred schema. -/
theorem jsonify_order_amended (schema : Schema) (name : String) (d : Doc)
    (hne : ∀ g ∈ get_sorted_field_values d, g.2 ≠ [])
    (hnames : str_pairwise_lt ((get_sorted_field_values d).map
      (fun g => get_field_name schema g.1)) = true) :
    ((get_sorted_field_values d).map Prod.fst).Sorted (fun a b => a ≤ b) ∧
    ((get_sorted_field_values d).map Prod.fst).Nodup ∧
    jsonify_groups schema name (get_sorted_field_values d) [] =
      .ok ((get_sorted_field_values d).map
        (fun g => (get_field_name schema g.1, g.2.head?.getD (.str "")))) := by
  refine ⟨(get_sorted_fields_ascending d).1, (get_sorted_fields_ascending d).2, ?_⟩
  have h := jsonify_groups_ascending schema name (get_sorted_field_values d) [] hne
    (by simp) hnames
  simpa using h

theorem jsonify_order_amended_witness :
    (∀ g ∈ get_sorted_field_values swap_doc, g.2 ≠ []) ∧
    str_pairwise_lt ((get_sorted_field_values swap_doc).map
      (fun g => get_field_name sorted_schema g.1)) = true ∧
    jsonify_groups sorted_schema "c" (get_sorted_field_values swap_doc) [] =
      .ok [("a", .str "x"), ("b", .str "y")] := by
  refine ⟨by decide, by decide, ?_⟩
  rw [(jsonify_order_amended sorted_schema "c" swap_doc (by decide) (by decide)).2.2]
  rfl

lemma read_string_reduction (s : Surfer) (name q : String) (r : Option Unit) (ix : Index)
    (flds : List Nat) (lim : Option Nat) (sc : Option Rat)
    (h1 : alist_get s.readers name = some r)
    (h2 : alist_get s.indexes name = some ix)
    (h3 : alist_get s.fields name = some flds) :
    read_string s name q lim sc =
      match collect_docs
          (if r.isNone then { s with readers := alist_put s.readers name (some ()) } else s)
          name ix sc
          (engine_search ix flds (parse_query q)
            (match lim with | some l => l | none => 10)) with
      | .ok docs =>
        .ok ((if r.isNone then { s with readers := alist_put s.readers name (some ()) } else s),
          some docs)
      | .error e => .error e := by
  cases r <;> simp [read_string, h1, h2, h3]

lemma collect_docs_ok_length_le (s : Surfer) (name : String) (ix : Index) (sc : Option Rat) :
    ∀ (hits : List (Rat × Nat)) (ds : List Json),
      collect_docs s name ix sc hits = .ok ds → ds.length ≤ hits.length
  | [], ds, h => by
    simp only [collect_docs, Except.ok.injEq] at h
    rw [← h]
    simp
  | (dsc, addr) :: rest, ds, h => by
    simp only [collect_docs] at h
    cases hskip : (match sc with | some m => decide (dsc < m) | none => false) with
    | true =>
      rw [hskip, if_pos rfl] at h
      exact Nat.le_succ_of_le (collect_docs_ok_length_le s name ix sc rest ds h)
    | false =>
      rw [hskip] at h
      simp only [Bool.false_eq_true, if_false] at h
      cases hd : searcher_doc ix addr with
      | error e => simp [hd, except_bind_err] at h
      | ok doc =>
        simp only [hd, except_bind_ok] at h
        cases hj : jsonify s name doc with
        | error e => simp [hj, except_bind_err] at h
        | ok j1 =>
          simp only [hj, except_bind_ok] at h
          cases hr : collect_docs s name ix sc rest with
          | error e => simp [hr, except_bind_err] at h
          | ok rtl =>
            simp only [hr, except_bind_ok, Except.ok.injEq] at h
            rw [← h]
            simpa using collect_docs_ok_length_le s name ix sc rest rtl hr

lemma collect_docs_none_length (s : Surfer) (name : String) (ix : Index) :
    ∀ (hits : List (Rat × Nat)) (ds : List Json),
      collect_docs s name ix none hits = .ok ds → ds.length = hits.length
  | [], ds, h => by
    simp only [collect_docs, Except.ok.injEq] at h
    rw [← h]
    rfl
  | (dsc, addr) :: rest, ds, h => by
    simp only [collect_docs, Bool.false_eq_true, if_false] at h
    cases hd : searcher_doc ix addr with
    | error e => simp [hd, except_bind_err] at h
    | ok doc =>
      simp only [hd, except_bind_ok] at h
      cases hj : jsonify s name doc with
      | error e => simp [hj, except_bind_err] at h
      | ok j1 =>
        simp only [hj, except_bind_ok] at h
        cases hr : collect_docs s name ix none rest with
        | error e => simp [hr, except_bind_err] at h
        | ok rtl =>
          simp only [hr, except_bind_ok, Except.ok.injEq] at h
          rw [← h]
          simpa using collect_docs_none_length s name ix rest rtl hr

/-- C6: with limit unspecified a read retrieves the top 10 ranked hits,
returning exactly 10 results when at least 10 documents match and no
minimum score is given; with an explicit limit k it returns at most k
results. -/
theorem read_limit_spec (s : Surfer) (name q : String) (r : Option Unit) (ix : Index)
    (flds : List Nat)
    (h1 : alist_get s.readers name = some r)
    (h2 : alist_get s.indexes name = some ix)
    (h3 : alist_get s.fields name = some flds) :
    (∀ (s2 : Surfer) (docs : List Json),
      read_string s name q none none = .ok (s2, some docs) →
      10 ≤ (ranked_hits ix flds (parse_query q)).length → docs.length = 10) ∧
    (∀ (k : Nat) (sc : Option Rat) (s2 : Surfer) (docs : List Json),
      read_string s name q (some k) sc = .ok (s2, some docs) → docs.length ≤ k) := by
  constructor
  · intro s2 docs hread hlen
    rw [read_string_reduction s name q r ix flds none none h1 h2 h3] at hread
    cases hc : collect_docs
        (if r.isNone then { s with readers := alist_put s.readers name (some ()) } else s)
        name ix none (engine_search ix flds (parse_query q) 10) with
    | error e => rw [hc] at hread; exact absurd hread (by simp)
    | ok ds =>
      rw [hc] at hread
      simp only [Except.ok.injEq, Prod.mk.injEq, Option.some.injEq] at hread
      have hlen2 := collect_docs_none_length _ _ _ _ _ hc
      rw [← hread.2]
      rw [hlen2]
      simp only [engine_search, List.length_take]
      omega
  · intro k sc s2 docs hread
    rw [read_string_reduction s name q r ix flds (some k) sc h1 h2 h3] at hread
    cases hc : collect_docs
        (if r.isNone then { s with readers := alist_put s.readers name (some ()) } else s)
        name ix sc (engine_search ix flds (parse_query q) k) with
    | error e => rw [hc] at hread; exact absurd hread (by simp)
    | ok ds =>
      rw [hc] at hread
      simp only [Except.ok.injEq, Prod.mk.injEq, Option.some.injEq] at hread
      have hle := collect_docs_ok_length_le _ _ _ _ _ _ hc
      rw [← hread.2]
      have htake : (engine_search ix flds (parse_query q) k).length ≤ k := by
        simp only [engine_search, List.length_take]
        omega
      omega

theorem read_limit_spec_witness :
    alist_get many_surfer.readers "c" = some none ∧
    alist_get many_surfer.indexes "c" = some many_index ∧
    alist_get many_surfer.fields "c" = some [0] ∧
    10 ≤ (ranked_hits many_index [0] (parse_query "hello")).length ∧
    read_string many_surfer "c" "hello" none none =
      .ok (many_surfer_opened, some (List.replicate 10 hello_json)) ∧
    (List.replicate 10 hello_json).length = 10 ∧
    read_string many_surfer "c" "hello" (some 3) none =
      .ok (many_surfer_opened, some (List.replicate 3 hello_json)) ∧
    (List.replicate 3 hello_json).length ≤ 3 := by
  refine ⟨rfl, rfl, rfl, by decide, rfl, ?_, rfl, ?_⟩
  · exact (read_limit_spec many_surfer "c" "hello" none many_index [0] rfl rfl rfl).1
      many_surfer_opened (List.replicate 10 hello_json) rfl (by decide)
  · exact (read_limit_spec many_surfer "c" "hello" none many_index [0] rfl rfl rfl).2
      3 none many_surfer_opened (List.replicate 3 hello_json) rfl

lemma collect_docs_score_filter (s : Surfer) (name : String) (ix : Index) (m : Rat) :
    ∀ hits : List (Rat × Nat),
      collect_docs s name ix (some m) hits =
        collect_docs s name ix none (hits.filter (fun h => !decide (h.1 < m)))
  | [] => rfl
  | (dsc, addr) :: rest => by
    by_cases hm : dsc < m
    · have hd : decide (dsc < m) = true := by simpa using hm
      simp only [collect_docs, List.filter_cons, hd, Bool.not_true, Bool.false_eq_true,
        if_false, if_true]
      exact collect_docs_score_filter s name ix m rest
    · have hd : decide (dsc < m) = false := by simpa using hm
      simp only [collect_docs, List.filter_cons, hd, Bool.not_false, Bool.false_eq_true,
        if_false, if_true]
      rw [collect_docs_score_filter s name ix m rest]

/-- C7: with a minimum score supplied, hits scoring strictly below it are
dropped after top-K retrieval: the read returns exactly the survivors of
the filter applied to the top limit ranked hits, and the retrieval window
is never re-expanded to compensate. -/
theorem min_score_post_filter (s : Surfer) (name q : String) (lim : Option Nat) (m : Rat)
    (r : Option Unit) (ix : Index) (flds : List Nat)
    (h1 : alist_get s.readers name = some r)
    (h2 : alist_get s.indexes name = some ix)
    (h3 : alist_get s.fields name = some flds) :
    read_string s name q lim (some m) =
      match collect_docs
          (if r.isNone then { s with readers := alist_put s.readers name (some ()) } else s)
          name ix none
          (((ranked_hits ix flds (parse_query q)).take
              (match lim with | some l => l | none => 10)).filter
            (fun h => !decide (h.1 < m))) with
      | .ok docs =>
        .ok ((if r.isNone then { s with readers := alist_put s.readers name (some ()) } else s),
          some docs)
      | .error e => .error e := by
  rw [read_string_reduction s name q r ix flds lim (some m) h1 h2 h3]
  rw [show engine_search ix flds (parse_query q) (match lim with | some l => l | none => 10) =
    (ranked_hits ix flds (parse_query q)).take (match lim with | some l => l | none => 10)
    from rfl]
  rw [collect_docs_score_filter]

theorem min_score_post_filter_witness :
    alist_get many_surfer.readers "c" = some none ∧
    alist_get many_surfer.indexes "c" = some many_index ∧
    alist_get many_surfer.fields "c" = some [0] ∧
    read_string many_surfer "c" "hello" none (some 5) =
      (match collect_docs many_surfer_opened "c" many_index none
          (((ranked_hits many_index [0] (parse_query "hello")).take 10).filter
            (fun h => !decide (h.1 < 5))) with
       | .ok docs => .ok (many_surfer_opened, some docs)
       | .error e => .error e) ∧
    read_string many_surfer "c" "hello" none (some 5) = .ok (many_surfer_opened, some []) := by
  refine ⟨rfl, rfl, rfl, ?_, rfl⟩
  exact min_score_post_filter many_surfer "c" "hello" none 5 none many_index [0] rfl rfl rfl

lemma kvs_to_json_good : ∀ kv : ValueKVs, kvs_good kv = true →
    kvs_to_json kv = .ok (json_of (kvs_to_list kv))
  | .nil, _ => rfl
  | .cons k v rest, h => by
    simp only [kvs_good, Bool.and_eq_true] at h
    obtain ⟨⟨hk, hv⟩, hrest⟩ := h
    have hr := kvs_to_json_good rest hrest
    cases k <;> simp [is_str_key] at hk
    cases v <;> simp [good_scalar] at hv <;>
      simp [kvs_to_json, json_key, value_to_json, hr, except_bind_ok, json_of, kvs_to_list,
        key_str, scalar_json]

lemma value_to_json_map_good (kv : ValueKVs) (h : kvs_good kv = true) :
    value_to_json (.map kv) = .ok (.obj (json_of (kvs_to_list kv))) := by
  simp [value_to_json, kvs_to_json_good kv h, except_bind_ok]

lemma value_from_json_scalar (control : Option (List (String × Control))) (k : String)
    (v : Value) (h : good_scalar v = true) :
    value_from_json (entry_ftype control k v) (scalar_json v) = .ok (scalar_sv v) := by
  cases v with
  | null => simp [good_scalar] at h
  | bool b => simp [good_scalar] at h
  | char c => simp [good_scalar] at h
  | bytes bs => simp [good_scalar] at h
  | seq l => simp [good_scalar] at h
  | map kv2 => simp [good_scalar] at h
  | str s => rfl
  | u8 n => rfl
  | u16 n => rfl
  | u32 n => rfl
  | u64 n => rfl
  | f32 q => rfl
  | f64 q => rfl
  | i8 w =>
    have hb : -(2 ^ 7 : Int) ≤ w ∧ w < 2 ^ 7 := by simpa [good_scalar] using h
    simp only [entry_ftype, scalar_json, scalar_sv]
    rcases le_or_lt 0 w with hw | hw
    · rw [show int_num w = JNum.pos w.toNat from if_pos hw]
      simp only [value_from_json]
      rw [if_pos (show w.toNat ≤ 2 ^ 63 - 1 by omega), Int.toNat_of_nonneg hw]
    · rw [show int_num w = JNum.neg w from if_neg (by omega)]
      rfl
  | i16 w =>
    have hb : -(2 ^ 15 : Int) ≤ w ∧ w < 2 ^ 15 := by simpa [good_scalar] using h
    simp only [entry_ftype, scalar_json, scalar_sv]
    rcases le_or_lt 0 w with hw | hw
    · rw [show int_num w = JNum.pos w.toNat from if_pos hw]
      simp only [value_from_json]
      rw [if_pos (show w.toNat ≤ 2 ^ 63 - 1 by omega), Int.toNat_of_nonneg hw]
    · rw [show int_num w = JNum.neg w from if_neg (by omega)]
      rfl
  | i32 w =>
    have hb : -(2 ^ 31 : Int) ≤ w ∧ w < 2 ^ 31 := by simpa [good_scalar] using h
    simp only [entry_ftype, scalar_json, scalar_sv]
    rcases le_or_lt 0 w with hw | hw
    · rw [show int_num w = JNum.pos w.toNat from if_pos hw]
      simp only [value_from_json]
      rw [if_pos (show w.toNat ≤ 2 ^ 63 - 1 by omega), Int.toNat_of_nonneg hw]
    · rw [show int_num w = JNum.neg w from if_neg (by omega)]
      rfl
  | i64 w =>
    have hb : -(2 ^ 63 : Int) ≤ w ∧ w < 2 ^ 63 := by simpa [good_scalar] using h
    simp only [entry_ftype, scalar_json, scalar_sv]
    rcases le_or_lt 0 w with hw | hw
    · rw [show int_num w = JNum.pos w.toNat from if_pos hw]
      simp only [value_from_json]
      rw [if_pos (show w.toNat ≤ 2 ^ 63 - 1 by omega), Int.toNat_of_nonneg hw]
    · rw [show int_num w = JNum.neg w from if_neg (by omega)]
      rfl

lemma find_field_idx : ∀ (schema : Schema) (i j : Nat) (hj : j < schema.length),
    ((schema.map FieldEntry.name).Nodup) →
    find_field i schema (schema[j].name) = some (i + j, schema[j])
  | [], _, j, hj, _ => absurd hj (by simp)
  | e :: rest, i, 0, hj, hnd => by simp [find_field]
  | e :: rest, i, j + 1, hj, hnd => by
    simp only [List.map_cons, List.nodup_cons] at hnd
    have hj2 : j < rest.length := by simpa using hj
    have hmem : rest[j] ∈ rest := List.getElem_mem _
    have hne : e.name ≠ rest[j].name := fun he => hnd.1 (he ▸ List.mem_map_of_mem _ hmem)
    have hrec := find_field_idx rest (i + 1) j hj2 hnd.2
    simp only [List.getElem_cons_succ, find_field, if_neg hne]
    rw [hrec]
    congr 2
    omega

lemma get_field_schema_of (control : Option (List (String × Control)))
    (l : List (String × Value)) (j : Nat) (hj : j < l.length)
    (hnd : (l.map Prod.fst).Nodup) :
    get_field (schema_of control l) (l[j].1) =
      some (j, ⟨l[j].1, entry_ftype control (l[j].1) (l[j].2)⟩) := by
  have hj2 : j < (schema_of control l).length := by simpa [schema_of] using hj
  have hnames : ((schema_of control l).map FieldEntry.name) = l.map Prod.fst := by
    simp only [schema_of, List.map_map]
    rfl
  have hentry : (schema_of control l)[j] =
      ⟨l[j].1, entry_ftype control (l[j].1) (l[j].2)⟩ := by
    simp [schema_of]
  have h := find_field_idx (schema_of control l) 0 j hj2 (hnames ▸ hnd)
  rw [hentry] at h
  simpa [get_field] using h

lemma scalar_json_ne_arr (v : Value) (items : List Json) : scalar_json v ≠ .arr items := by
  cases v <;> simp [scalar_json]

lemma parse_entries_cons_scalar (schema : Schema) (name : String) (jv : Json)
    (rest : List (String × Json)) (f : Nat) (fe : FieldEntry) (sv : SchemaValue)
    (hget : get_field schema name = some (f, fe))
    (hjv : ∀ items, jv ≠ Json.arr items)
    (hval : value_from_json fe.ftype jv = .ok sv) :
    parse_entries schema ((name, jv) :: rest) =
      (do
        let r ← parse_entries schema rest
        Except.ok ((f, sv) :: r)) := by
  cases jv with
  | arr items => exact absurd rfl (hjv items)
  | null => simp [parse_entries, hget, hval, except_bind_ok]
  | bool b => simp [parse_entries, hget, hval, except_bind_ok]
  | num x => simp [parse_entries, hget, hval, except_bind_ok]
  | str s => simp [parse_entries, hget, hval, except_bind_ok]
  | obj o => simp [parse_entries, hget, hval, except_bind_ok]

lemma parse_entries_map (schema : Schema) :
    ∀ (l : List (String × Value)) (i : Nat),
      (∀ p ∈ l, good_scalar p.2 = true) →
      (∀ (j : Nat) (hj : j < l.length), get_field schema (l[j].1) =
        some (i + j, ⟨l[j].1, entry_ftype none (l[j].1) (l[j].2)⟩)) →
      parse_entries schema (json_of l) = .ok ((List.range' i l.length).zip (svs l))
  | [], i, _, _ => by simp [json_of, parse_entries, svs]
  | (k, v) :: rest, i, hgood, hget => by
    have h0 := hget 0 (by simp)
    simp only [List.getElem_cons_zero, Nat.add_zero] at h0
    have hvj := value_from_json_scalar none k v (hgood (k, v) (List.mem_cons_self _ _))
    have hrec := parse_entries_map schema rest (i + 1)
      (fun q hq => hgood q (List.mem_cons_of_mem _ hq))
      (fun j hj => by
        have h1 := hget (j + 1) (by simpa using Nat.succ_lt_succ hj)
        simp only [List.getElem_cons_succ] at h1
        rw [show i + (j + 1) = i + 1 + j by omega] at h1
        exact h1)
    show parse_entries schema ((k, scalar_json v) :: json_of rest) = _
    rw [parse_entries_cons_scalar schema k (scalar_json v) (json_of rest) i _ _ h0
      (scalar_json_ne_arr v) hvj]
    rw [hrec, except_bind_ok]
    rfl

lemma str_pairwise_nodup : ∀ names : List String, str_pairwise_lt names = true → names.Nodup
  | [], _ => List.nodup_nil
  | a :: rest, h => by
    simp only [str_pairwise_lt, Bool.and_eq_true, List.all_eq_true] at h
    refine List.nodup_cons.mpr ⟨?_, str_pairwise_nodup rest h.2⟩
    intro hmem
    exact absurd rfl (str_lt_ne (h.1 a hmem))

lemma kvs_keys_eq : ∀ kv : ValueKVs, kvs_keys kv = (kvs_to_list kv).map Prod.fst
  | .nil => rfl
  | .cons k v rest => by simp [kvs_keys, kvs_to_list, kvs_keys_eq rest]

lemma filter_key_nodup : ∀ (d : Doc), ((d.map Prod.fst).Nodup) → ∀ fv ∈ d,
    d.filter (fun x => x.1 == fv.1) = [fv]
  | [], _, fv, hm => absurd hm (List.not_mem_nil fv)
  | a :: rest, hnd, fv, hm => by
    simp only [List.map_cons, List.nodup_cons] at hnd
    rcases List.mem_cons.mp hm with he | hm2
    · subst he
      have hrest : rest.filter (fun x => x.1 == fv.1) = [] := by
        rw [List.filter_eq_nil_iff]
        intro x hx
        simp only [beq_iff_eq]
        intro hxe
        exact hnd.1 (hxe ▸ List.mem_map_of_mem _ hx)
      simp [List.filter_cons, hrest]
    · have hne : a.1 ≠ fv.1 := fun he => hnd.1 (he ▸ List.mem_map_of_mem _ hm2)
      have hbeq : (a.1 == fv.1) = false := beq_eq_false_iff_ne.mpr hne
      simp only [List.filter_cons, hbeq, Bool.false_eq_true, if_false]
      exact filter_key_nodup rest hnd.2 fv hm2

lemma get_sorted_of_sorted_nodup (d : Doc) (hnd : (d.map Prod.fst).Nodup)
    (hsort : (d.map Prod.fst).Sorted (fun a b => a ≤ b)) :
    get_sorted_field_values d = d.map (fun fv => (fv.1, [fv.2])) := by
  unfold get_sorted_field_values
  rw [List.dedup_eq_self.mpr hnd]
  rw [List.eq_of_perm_of_sorted (List.perm_insertionSort _ _)
    (List.sorted_insertionSort _ _) hsort]
  rw [List.map_map]
  apply List.map_congr_left
  intro fv hfv
  simp only [Function.comp]
  rw [filter_key_nodup d hnd fv hfv]
  rfl

lemma option_bind_some {α β : Type} (a : α) (f : α → Option β) :
    ((some a : Option α) >>= f) = f a := rfl

lemma deser_scalar_roundtrip : ∀ v : Value, good_scalar v = true →
    deser_scalar v (schema_value_to_json (scalar_sv v)) = some v := by
  intro v h
  cases v with
  | null => simp [good_scalar] at h
  | bool b => simp [good_scalar] at h
  | char c => simp [good_scalar] at h
  | bytes bs => simp [good_scalar] at h
  | seq l => simp [good_scalar] at h
  | map kv2 => simp [good_scalar] at h
  | str s => rfl
  | u64 n => rfl
  | f32 q => rfl
  | f64 q => rfl
  | u8 n =>
    have hb : n < 2 ^ 8 := by simpa [good_scalar] using h
    simp only [scalar_sv, schema_value_to_json, deser_scalar]
    rw [if_pos (by omega)]
  | u16 n =>
    have hb : n < 2 ^ 16 := by simpa [good_scalar] using h
    simp only [scalar_sv, schema_value_to_json, deser_scalar]
    rw [if_pos (by omega)]
  | u32 n =>
    have hb : n < 2 ^ 32 := by simpa [good_scalar] using h
    simp only [scalar_sv, schema_value_to_json, deser_scalar]
    rw [if_pos (by omega)]
  | i8 w =>
    have hb : -(2 ^ 7 : Int) ≤ w ∧ w < 2 ^ 7 := by simpa [good_scalar] using h
    simp only [scalar_sv, schema_value_to_json]
    rcases le_or_lt 0 w with hw | hw
    · rw [show int_num w = JNum.pos w.toNat from if_pos hw]
      simp only [deser_scalar]
      rw [if_pos (show w.toNat ≤ 2 ^ 7 - 1 by omega), Int.toNat_of_nonneg hw]
    · rw [show int_num w = JNum.neg w from if_neg (by omega)]
      simp only [deser_scalar]
      rw [if_pos (by omega)]
  | i16 w =>
    have hb : -(2 ^ 15 : Int) ≤ w ∧ w < 2 ^ 15 := by simpa [good_scalar] using h
    simp only [scalar_sv, schema_value_to_json]
    rcases le_or_lt 0 w with hw | hw
    · rw [show int_num w = JNum.pos w.toNat from if_pos hw]
      simp only [deser_scalar]
      rw [if_pos (show w.toNat ≤ 2 ^ 15 - 1 by omega), Int.toNat_of_nonneg hw]
    · rw [show int_num w = JNum.neg w from if_neg (by omega)]
      simp only [deser_scalar]
      rw [if_pos (by omega)]
  | i32 w =>
    have hb : -(2 ^ 31 : Int) ≤ w ∧ w < 2 ^ 31 := by simpa [good_scalar] using h
    simp only [scalar_sv, schema_value_to_json]
    rcases le_or_lt 0 w with hw | hw
    · rw [show int_num w = JNum.pos w.toNat from if_pos hw]
      simp only [deser_scalar]
      rw [if_pos (show w.toNat ≤ 2 ^ 31 - 1 by omega), Int.toNat_of_nonneg hw]
    · rw [show int_num w = JNum.neg w from if_neg (by omega)]
      simp only [deser_scalar]
      rw [if_pos (by omega)]
  | i64 w =>
    simp only [scalar_sv, schema_value_to_json]
    rcases le_or_lt 0 w with hw | hw
    · rw [show int_num w = JNum.pos w.toNat from if_pos hw]
      simp only [deser_scalar]
      rw [Int.toNat_of_nonneg hw]
    · rw [show int_num w = JNum.neg w from if_neg (by omega)]
      rfl

lemma alist_get_of_map (G : Value → Json) : ∀ (l : List (String × Value)) (p : String × Value),
    ((l.map Prod.fst).Nodup) → p ∈ l →
    alist_get (l.map (fun q => (q.1, G q.2))) p.1 = some (G p.2)
  | [], p, _, hm => absurd hm (List.not_mem_nil p)
  | a :: rest, p, hnd, hm => by
    simp only [List.map_cons, List.nodup_cons] at hnd
    rcases List.mem_cons.mp hm with he | hm2
    · subst he
      simp [alist_get]
    · have hne : a.1 ≠ p.1 := fun he => hnd.1 (he ▸ List.mem_map_of_mem _ hm2)
      simp only [List.map_cons, alist_get, if_neg hne]
      exact alist_get_of_map G rest p hnd.2 hm2

lemma deser_fields_roundtrip (entries : List (String × Json)) :
    ∀ kv : ValueKVs, kvs_good kv = true →
      (∀ p ∈ kvs_to_list kv,
        alist_get entries p.1 = some (schema_value_to_json (scalar_sv p.2))) →
      deser_fields entries kv = some kv
  | .nil, _, _ => rfl
  | .cons k v rest, hg, hl => by
    simp only [kvs_good, Bool.and_eq_true] at hg
    obtain ⟨⟨hk, hv⟩, hrest⟩ := hg
    cases k <;> simp [is_str_key] at hk
    case str s =>
    have hl0 : alist_get entries s = some (schema_value_to_json (scalar_sv v)) := by
      have := hl (key_str (.str s), v) (List.mem_cons_self _ _)
      simpa [key_str] using this
    have hrec := deser_fields_roundtrip entries rest hrest
      (fun p hp => hl p (List.mem_cons_of_mem _ hp))
    simp [deser_fields, option_bind_some, hl0, deser_scalar_roundtrip v hv, hrec]

lemma deser_record_roundtrip (kv : ValueKVs) (entries : List (String × Json))
    (hg : kvs_good kv = true)
    (hl : ∀ p ∈ kvs_to_list kv,
      alist_get entries p.1 = some (schema_value_to_json (scalar_sv p.2))) :
    deser_record (.map kv) (.obj entries) = some (.map kv) := by
  simp [deser_record, deser_fields_roundtrip entries kv hg hl]

lemma read_structs_reduction (pattern : Value) (s : Surfer) (name q : String)
    (r : Option Unit) (ix : Index) (flds : List Nat) (lim : Option Nat) (sc : Option Rat)
    (h1 : alist_get s.readers name = some r)
    (h2 : alist_get s.indexes name = some ix)
    (h3 : alist_get s.fields name = some flds) :
    read_structs pattern s name q lim sc =
      match collect_structs pattern
          (if r.isNone then { s with readers := alist_put s.readers name (some ()) } else s)
          name ix sc
          (engine_search ix flds (parse_query q)
            (match lim with | some l => l | none => 10)) with
      | .ok docs =>
        .ok ((if r.isNone then { s with readers := alist_put s.readers name (some ()) } else s),
          some docs)
      | .error e => .error e := by
  cases r <;> simp [read_structs, h1, h2, h3]

lemma kvs_good_to_list : ∀ kv : ValueKVs, kvs_good kv = true →
    ∀ p ∈ kvs_to_list kv, good_scalar p.2 = true
  | .nil, _, p, hp => absurd hp (List.not_mem_nil p)
  | .cons k v rest, h, p, hp => by
    simp only [kvs_good, Bool.and_eq_true] at h
    rcases List.mem_cons.mp hp with he | hm
    · rw [he]
      exact h.1.2
    · exact kvs_good_to_list rest h.2 p hm

lemma field_stored_entry_none (k : String) (v : Value) (h : good_scalar v = true) :
    field_stored (entry_ftype none k v) = true := by
  cases v <;> simp_all [good_scalar, entry_ftype, field_stored, resolve_text_option,
    resolve_number_option, TEXT_STORED]

lemma doc_names_map (control : Option (List (String × Control)))
    (l : List (String × Value)) :
    (((List.range l.length).zip (svs l)).map (fun fv => (fv.1, [fv.2]))).map
      (fun g => get_field_name (schema_of control l) g.1) = l.map Prod.fst := by
  apply List.ext_getElem
  · simp [svs]
  · intro i h1 h2
    have hi : i < l.length := by simpa using h2
    simp [List.getElem_map, List.getElem_zip, List.getElem_range, get_field_name, schema_of,
      List.getElem?_map, List.getElem?_eq_getElem, hi, svs]

lemma doc_fm_map (control : Option (List (String × Control)))
    (l : List (String × Value)) :
    (((List.range l.length).zip (svs l)).map (fun fv => (fv.1, [fv.2]))).map
      (fun g => (get_field_name (schema_of control l) g.1,
        g.2.head?.getD (SchemaValue.str ""))) =
      l.map (fun p => (p.1, scalar_sv p.2)) := by
  apply List.ext_getElem
  · simp [svs]
  · intro i h1 h2
    have hi : i < l.length := by simpa using h2
    simp [List.getElem_map, List.getElem_zip, List.getElem_range, get_field_name, schema_of,
      List.getElem?_map, List.getElem?_eq_getElem, hi, svs]

/-- C1 counterexample: a record with a Bool field has a structured shape
matching its own inferred schema (Bool maps to a Text field), but its JSON
form does not parse against that schema, so the insert fails and the
subsequent read returns an empty list that does not contain the record. -/
theorem round_trip_bool_cex :
    to_schema bool_record none = .ok bool_schema ∧
    insert_struct bool_surfer "books" bool_record =
      .error ⟨"Unable to parse document", "Expected a string"⟩ ∧
    (read_structs bool_record bool_surfer "books" "hello" none none).map (fun p => p.2) =
      .ok (some []) ∧
    bool_record ∉ ([] : List Value) :=
  ⟨rfl, rfl, rfl, by simp⟩

/-- C1 (amended): for a freshly created collection registered with the
schema inferred from the record shape, a record whose fields are strings
and in-range numbers (no Bool, no Sequence fields, whose JSON forms do not
parse against the inferred Text and Bytes fields) round-trips: insert
succeeds and a read with a query whose terms all occur in the record text
fields returns exactly a list containing a value equal to the record. -/
theorem round_trip_insert_read (rank : Doc → List String → Rat) (home name : String)
    (kv : ValueKVs) (schema : Schema) (q : String)
    (hgood : kvs_good kv = true)
    (hsorted : str_pairwise_lt (kvs_keys kv) = true)
    (hschema : to_schema (.map kv) none = .ok schema)
    (hq : query_matches kv q = true) :
    ∃ s1 s2,
      insert_struct (Surfer.try_from rank ⟨[(name, schema)], some home⟩) name (.map kv) =
        .ok s1 ∧
      read_structs (.map kv) s1 name q none none = .ok (s2, some [.map kv]) := by
  have hkeys := kvs_good_string_keys kv hgood
  have hhand := kvs_good_handled kv hgood
  have hbf : to_schema (.map kv) none = .ok (schema_of none (kvs_to_list kv)) :=
    (build_fields_spec none kv).1 hkeys hhand
  rw [hbf] at hschema
  have hschema2 : schema_of none (kvs_to_list kv) = schema := by
    injection hschema
  subst hschema2
  set l := kvs_to_list kv with hldef
  have hG : ∀ p ∈ l, good_scalar p.2 = true := kvs_good_to_list kv hgood
  have hnd : (l.map Prod.fst).Nodup := by
    have h0 := str_pairwise_nodup (kvs_keys kv) hsorted
    rw [kvs_keys_eq] at h0
    exact h0
  have hjson : value_to_json (.map kv) = .ok (.obj (json_of l)) :=
    value_to_json_map_good kv hgood
  set doc := (List.range l.length).zip (svs l) with hdocdef
  have hlenzip : doc.length = l.length := by simp [hdocdef, svs]
  have hparse : parse_document (schema_of none l) (.obj (json_of l)) = .ok doc := by
    show parse_entries (schema_of none l) (json_of l) = .ok doc
    rw [hdocdef, List.range_eq_range']
    exact parse_entries_map (schema_of none l) l 0 hG (fun j hj => by
      have hg := get_field_schema_of none l j hj hnd
      simpa using hg)
  set ix1 : Index := ⟨schema_of none l, [doc], rank⟩ with hix
  set s1 : Surfer := ⟨home, [(name, ix1)],
    [(name, List.range (schema_of none l).length)], [(name, none)], [(name, some ())]⟩ with hs1
  set s2 : Surfer := ⟨home, [(name, ix1)],
    [(name, List.range (schema_of none l).length)], [(name, some ())], [(name, some ())]⟩ with hs2
  have hins : insert_struct (Surfer.try_from rank ⟨[(name, schema_of none l)], some home⟩)
      name (.map kv) = .ok s1 := by
    simp only [insert_struct, Surfer.try_from, List.map_cons, List.map_nil, Option.getD_some]
    rw [hjson, except_bind_ok]
    simp only [alist_get, eq_self_iff_true, if_true, Option.isNone_none, if_true]
    rw [hparse, except_bind_ok]
    simp [alist_put, hs1, hix]
  have h1 : alist_get s1.readers name = some none := by simp [hs1, alist_get]
  have h2 : alist_get s1.indexes name = some ix1 := by simp [hs1, alist_get]
  have h3 : alist_get s1.fields name = some (List.range (schema_of none l).length) := by
    simp [hs1, alist_get]
  have hred := read_structs_reduction (.map kv) s1 name q none ix1
    (List.range (schema_of none l).length) none none h1 h2 h3
  have hs12 : ({ s1 with readers := alist_put s1.readers name (some ()) } : Surfer) = s2 := by
    simp [hs1, hs2, alist_put]
  have hmatch : doc_matches (schema_of none l) (List.range (schema_of none l).length) doc
      (parse_query q) = true := by
    simp only [query_matches, Bool.and_eq_true, List.all_eq_true, Bool.not_eq_true'] at hq
    obtain ⟨hne, hall⟩ := hq
    obtain ⟨t, ht⟩ : ∃ t, t ∈ parse_query q := by
      cases hpq : parse_query q with
      | nil => rw [hpq] at hne; simp at hne
      | cons a tl => exact ⟨a, List.mem_cons_self _ _⟩
    have hmt := hall t ht
    obtain ⟨p, hp, hpm⟩ := List.any_eq_true.mp hmt
    obtain ⟨j, hj, hget⟩ := List.mem_iff_getElem.mp hp
    cases hv : p.2 with
    | str s0 =>
      rw [hv] at hpm
      have htok : (tokens s0).contains t = true := hpm
      refine List.any_eq_true.mpr ⟨t, ht, List.any_eq_true.mpr
        ⟨(j, SchemaValue.str s0), ?_, ?_⟩⟩
      · have hjd : j < doc.length := by rw [hlenzip]; exact hj
        have hde : doc[j] = (j, SchemaValue.str s0) := by
          simp [hdocdef, List.getElem_zip, List.getElem_range, svs, List.getElem_map, hget, hv,
            scalar_sv]
        rw [← hde]
        exact List.getElem_mem _
      · simp only [Bool.and_eq_true]
        refine ⟨⟨?_, ?_⟩, ?_⟩
        · have hjr : (j : Nat) ∈ List.range (schema_of none l).length := by
            apply List.mem_range.mpr
            simpa [schema_of] using hj
          exact List.elem_iff.mpr hjr
        · have hsj : (schema_of none l)[j]? =
              some ⟨l[j].1, entry_ftype none (l[j].1) (l[j].2)⟩ := by
            simp [schema_of, List.getElem?_map, List.getElem?_eq_getElem, hj]
          rw [hsj]
          rw [hget, hv]
          rfl
        · exact htok
    | bool b => rw [hv] at hpm; simp at hpm
    | null => rw [hv] at hpm; simp at hpm
    | u8 n => rw [hv] at hpm; simp at hpm
    | u16 n => rw [hv] at hpm; simp at hpm
    | u32 n => rw [hv] at hpm; simp at hpm
    | u64 n => rw [hv] at hpm; simp at hpm
    | i8 w => rw [hv] at hpm; simp at hpm
    | i16 w => rw [hv] at hpm; simp at hpm
    | i32 w => rw [hv] at hpm; simp at hpm
    | i64 w => rw [hv] at hpm; simp at hpm
    | f32 x => rw [hv] at hpm; simp at hpm
    | f64 x => rw [hv] at hpm; simp at hpm
    | char c => rw [hv] at hpm; simp at hpm
    | bytes bs => rw [hv] at hpm; simp at hpm
    | seq sq => rw [hv] at hpm; simp at hpm
    | map mp => rw [hv] at hpm; simp at hpm
  have hsearch : engine_search ix1 (List.range (schema_of none l).length) (parse_query q) 10 =
      [(rank doc (parse_query q), 0)] := by
    simp [engine_search, ranked_hits, hix, List.enum, List.enumFrom, hmatch,
      List.insertionSort, List.orderedInsert]
  have hstored : stored_only (schema_of none l) doc = doc := by
    apply List.filter_eq_self.mpr
    intro fv hfv
    obtain ⟨i, hi, hfi⟩ := List.mem_iff_getElem.mp hfv
    have hi2 : i < l.length := by omega
    have hde : doc[i] = (i, scalar_sv (l[i].2)) := by
      simp [hdocdef, List.getElem_zip, List.getElem_range, svs, List.getElem_map]
    rw [← hfi, hde]
    have hsj : (schema_of none l)[i]? =
        some ⟨l[i].1, entry_ftype none (l[i].1) (l[i].2)⟩ := by
      simp [schema_of, List.getElem?_map, List.getElem?_eq_getElem, hi2]
    simp only [hsj]
    exact field_stored_entry_none _ _ (hG (l[i]) (List.getElem_mem _))
  have hjsonify : jsonify s2 name doc =
      .ok (.obj (l.map (fun p2 => (p2.1, schema_value_to_json (scalar_sv p2.2))))) := by
    have hfst : doc.map Prod.fst = List.range l.length := by
      rw [hdocdef]
      exact List.map_fst_zip _ _ (by simp [svs])
    have hdnd : (doc.map Prod.fst).Nodup := by
      rw [hfst]
      exact List.nodup_range _
    have hdsort : (doc.map Prod.fst).Sorted (fun a b => a ≤ b) := by
      rw [hfst]
      exact (List.pairwise_lt_range _).imp (fun h => le_of_lt h)
    have hgs := get_sorted_of_sorted_nodup doc hdnd hdsort
    have hjg := jsonify_groups_ascending (schema_of none l) name
      (doc.map (fun fv => (fv.1, [fv.2]))) []
      (by
        intro g hg
        obtain ⟨fv, hfv, hfveq⟩ := List.mem_map.mp hg
        rw [← hfveq]
        simp)
      (by simp)
      (by
        rw [show (doc.map (fun fv => (fv.1, [fv.2]))).map
            (fun g => get_field_name (schema_of none l) g.1) = l.map Prod.fst from by
          rw [hdocdef]; exact doc_names_map none l]
        rw [← kvs_keys_eq]
        exact hsorted)
    simp only [jsonify]
    rw [show alist_get s2.indexes name = some ix1 from by simp [hs2, alist_get]]
    show (do
      let fm ← jsonify_groups ix1.schema name (get_sorted_field_values doc) []
      Except.ok (Json.obj (fm.map
        (fun p2 : String × SchemaValue => (p2.1, schema_value_to_json p2.2))))) = _
    rw [show ix1.schema = schema_of none l from rfl, hgs, hjg, except_bind_ok]
    rw [show (doc.map (fun fv => (fv.1, [fv.2]))).map
        (fun g => (get_field_name (schema_of none l) g.1,
          g.2.head?.getD (SchemaValue.str ""))) =
        l.map (fun p2 => (p2.1, scalar_sv p2.2)) from by
      rw [hdocdef]; exact doc_fm_map none l]
    simp only [List.nil_append, List.map_map]
    rfl
  have hdeser : deser_record (.map kv)
      (.obj (l.map (fun p2 => (p2.1, schema_value_to_json (scalar_sv p2.2))))) =
      some (.map kv) := by
    apply deser_record_roundtrip kv _ hgood
    intro p hp
    have := alist_get_of_map (fun v => schema_value_to_json (scalar_sv v)) l p hnd hp
    simpa using this
  refine ⟨s1, s2, hins, ?_⟩
  rw [hred]
  simp only [Option.isNone_none, if_true]
  rw [hs12, hsearch]
  simp only [collect_structs]
  rw [show searcher_doc ix1 0 = .ok doc from by simp [searcher_doc, hix, hstored]]
  rw [except_bind_ok, hjsonify, except_bind_ok, hdeser]
  simp [collect_structs, except_bind_ok]

theorem round_trip_insert_read_witness :
    kvs_good fix_kv = true ∧
    str_pairwise_lt (kvs_keys fix_kv) = true ∧
    to_schema (.map fix_kv) none = .ok fix_schema ∧
    query_matches fix_kv "hello" = true ∧
    (∃ s1 s2,
      insert_struct (Surfer.try_from fix_rank ⟨[("books", fix_schema)], some "tmp"⟩) "books"
        (.map fix_kv) = .ok s1 ∧
      read_structs (.map fix_kv) s1 "books" "hello" none none =
        .ok (s2, some [.map fix_kv])) :=
  ⟨by decide, by decide, rfl, by decide,
   round_trip_insert_read fix_rank "tmp" "books" fix_kv fix_schema "hello"
     (by decide) (by decide) rfl (by decide)⟩

end JsonSurf
